import Mathlib

/-!
# Verification of the batch answer-evaluation pipeline

A shallow embedding of the evaluation pipeline of `app/` (services.py,
main.py, crud.py, models.py, schemas.py) together with proofs of the
spec's testable properties.

Modelling conventions:
* Python strings are `List Char`; `response.text` being `None` or `""`
  (both falsy in the source's `if response.text:`) is the empty list.
* Python floats (call durations) are modelled as exact integer time
  units; the claims under study concern only which terms enter each
  sum, never float rounding.
* Exceptions are modelled with `Except`: every raising path of the
  source is an `Except.error` value carrying the kind of exception.
* The Gemini call itself is external; it is modelled by an oracle
  `Nat → CallResult` giving, per chunk position, either a raised
  exception or a response (usage metadata plus raw text).
* `json.loads` is modelled by a small JSON reader over `List Char`
  restricted to the constructs the pipeline can meet (strings with
  basic escapes, numbers — including CPython's `NaN`/`Infinity`/
  `-Infinity` constants — kept as raw lexemes, booleans, null, arrays,
  objects); a decoded number is never a valid verdict object, so such
  a response raises past the chunk-level handler, as in the source.  Degenerate divergences (e.g. a top-level empty dict) are
  noted where the corresponding definition is introduced.
-/

/-! ## Character constants

`btick`, `lbrace` and `rbrace` name the backtick and curly-brace
characters (code points 96, 123 and 125); they are used by the fence
markers, the serialised wire format and the JSON reader below. -/

def btick : Char := Char.ofNat 96

def lbrace : Char := Char.ofNat 123

def rbrace : Char := Char.ofNat 125

/-! ## Python `str.strip` and `str.replace` over `List Char`

These model line 177 of services.py:
`response.text.strip().replace(...).replace(...).strip()`.
`pyReplaceF` is fuel-based so that it evaluates inside the kernel;
`pyReplace` instantiates the fuel with the input length, which the
fuel-irrelevance lemma below shows is always enough. -/

def pyStrip (s : List Char) : List Char :=
  ((s.dropWhile Char.isWhitespace).reverse.dropWhile Char.isWhitespace).reverse

def pyReplaceF (pat repl : List Char) : Nat → List Char → List Char
  | _, [] => []
  | 0, s => s
  | fuel+1, c :: rest =>
    if pat.isPrefixOf (c :: rest) then
      repl ++ pyReplaceF pat repl fuel ((c :: rest).drop pat.length)
    else
      c :: pyReplaceF pat repl fuel rest

def pyReplace (pat repl s : List Char) : List Char :=
  pyReplaceF pat repl s.length s

set_option maxRecDepth 8000 in
/-- The fence-opening marker stripped by services.py line 177. -/
def fenceJsonPat : List Char := "```json".data

/-- The bare fence marker stripped by services.py line 177. -/
def fencePat : List Char := "```".data

/-- services.py line 177: strip, remove fence markers, strip again. -/
def clean (s : List Char) : List Char :=
  pyStrip (pyReplace fencePat [] (pyReplace fenceJsonPat [] (pyStrip s)))

/-! ## A model of `json.loads` -/

inductive JVal where
  | jstr (s : List Char)
  | jbool (b : Bool)
  | jnull
  | jnum (raw : List Char)
  | jarr (items : List JVal)
  | jobj (members : List (List Char × JVal))

def skipWs (s : List Char) : List Char := s.dropWhile Char.isWhitespace

def escChar (c : Char) : Option Char :=
  if c = '"' then some '"'
  else if c = '\\' then some '\\'
  else if c = '/' then some '/'
  else if c = 'b' then some (Char.ofNat 8)
  else if c = 'f' then some (Char.ofNat 12)
  else if c = 'n' then some '\n'
  else if c = 'r' then some '\r'
  else if c = 't' then some '\t'
  else none

def isHexDigitCh (c : Char) : Bool :=
  c.isDigit || ('a' ≤ c && c ≤ 'f') || ('A' ≤ c && c ≤ 'F')

def hexVal (c : Char) : Nat :=
  if c.isDigit then c.toNat - '0'.toNat
  else if 'a' ≤ c && c ≤ 'f' then c.toNat - 'a'.toNat + 10
  else c.toNat - 'A'.toNat + 10

/-- Body of a JSON string after the opening quote: collected characters
plus the rest of the input after the closing quote.  Escaped unicode
surrogate pairs are not modelled. -/
def parseStringBody : Nat → List Char → Option (List Char × List Char)
  | _, [] => none
  | 0, _ => none
  | fuel+1, c :: rest =>
    if c = '"' then some ([], rest)
    else if c = '\\' then
      match rest with
      | [] => none
      | e :: r1 =>
        if e = 'u' then
          match r1 with
          | a :: b :: c2 :: d :: r2 =>
            if isHexDigitCh a && isHexDigitCh b && isHexDigitCh c2 && isHexDigitCh d then
              (parseStringBody fuel r2).map
                (fun p => (Char.ofNat (hexVal a * 4096 + hexVal b * 256 + hexVal c2 * 16 + hexVal d) :: p.1, p.2))
            else none
          | _ => none
        else
          match escChar e with
          | some c' => (parseStringBody fuel r1).map (fun p => (c' :: p.1, p.2))
          | none => none
    else (parseStringBody fuel rest).map (fun p => (c :: p.1, p.2))

def lexExpSign (acc pre : List Char) (s : List Char) : Option (List Char × List Char) :=
  match s with
  | '+' :: t =>
    match t.span Char.isDigit with
    | (ds, t2) => if ds.isEmpty then none else some (acc ++ pre ++ '+' :: ds, t2)
  | '-' :: t =>
    match t.span Char.isDigit with
    | (ds, t2) => if ds.isEmpty then none else some (acc ++ pre ++ '-' :: ds, t2)
  | _ =>
    match s.span Char.isDigit with
    | (ds, t2) => if ds.isEmpty then none else some (acc ++ pre ++ ds, t2)

def lexExp (acc : List Char) (s : List Char) : Option (List Char × List Char) :=
  match s with
  | 'e' :: t => lexExpSign acc ['e'] t
  | 'E' :: t => lexExpSign acc ['E'] t
  | _ => some (acc, s)

def lexFrac (acc : List Char) (s : List Char) : Option (List Char × List Char) :=
  match s with
  | '.' :: t =>
    match t.span Char.isDigit with
    | (ds, t2) => if ds.isEmpty then none else lexExp (acc ++ '.' :: ds) t2
  | _ => lexExp acc s

/-- A JSON number, kept as its raw lexeme (the pipeline's validator
never accepts a number, so the value is irrelevant).  The constant
lexemes `NaN`, `Infinity` and `-Infinity`, which CPython's `json.loads`
accepts by default, are handled in `parseVal` itself. -/
def lexNumber (s : List Char) : Option (List Char × List Char) :=
  match s with
  | '-' :: t =>
    match t.span Char.isDigit with
    | (ds, t2) => if ds.isEmpty then none else lexFrac ('-' :: ds) t2
  | _ =>
    match s.span Char.isDigit with
    | (ds, t2) => if ds.isEmpty then none else lexFrac ds t2

/-- Recursive-descent JSON value reader.  The fuel decreases on every
recursive call; array and object tails are read by re-entering the
reader on a synthesised `[`/`{`-prefixed remainder, which keeps the
function structurally recursive on the fuel. -/
def parseVal : Nat → List Char → Option (JVal × List Char)
  | 0, _ => none
  | fuel+1, s =>
    match skipWs s with
    | [] => none
    | c :: rest =>
      if c = '"' then
        (parseStringBody rest.length rest).map (fun p => (JVal.jstr p.1, p.2))
      else if c = '[' then
        match skipWs rest with
        | ']' :: r => some (JVal.jarr [], r)
        | r =>
          match parseVal fuel r with
          | none => none
          | some (v, r1) =>
            match skipWs r1 with
            | ',' :: r2 =>
              match parseVal fuel ('[' :: r2) with
              | some (JVal.jarr vs, r3) => some (JVal.jarr (v :: vs), r3)
              | _ => none
            | ']' :: r2 => some (JVal.jarr [v], r2)
            | _ => none
      else if c = lbrace then
        match skipWs rest with
        | r =>
          if r.head? = some rbrace then some (JVal.jobj [], r.tail)
          else
            match r with
            | '"' :: r0 =>
              match parseStringBody r0.length r0 with
              | none => none
              | some (k, r1) =>
                match skipWs r1 with
                | ':' :: r2 =>
                  match parseVal fuel r2 with
                  | none => none
                  | some (v, r3) =>
                    match skipWs r3 with
                    | ',' :: r4 =>
                      match parseVal fuel (lbrace :: r4) with
                      | some (JVal.jobj kvs, r5) => some (JVal.jobj ((k, v) :: kvs), r5)
                      | _ => none
                    | d :: r4 =>
                      if d = rbrace then some (JVal.jobj [(k, v)], r4) else none
                    | _ => none
                | _ => none
            | _ => none
      else if "true".data.isPrefixOf (c :: rest) then some (JVal.jbool true, (c :: rest).drop 4)
      else if "false".data.isPrefixOf (c :: rest) then some (JVal.jbool false, (c :: rest).drop 5)
      else if "null".data.isPrefixOf (c :: rest) then some (JVal.jnull, (c :: rest).drop 4)
      else if "NaN".data.isPrefixOf (c :: rest) then
        some (JVal.jnum "NaN".data, (c :: rest).drop 3)
      else if "Infinity".data.isPrefixOf (c :: rest) then
        some (JVal.jnum "Infinity".data, (c :: rest).drop 8)
      else if "-Infinity".data.isPrefixOf (c :: rest) then
        some (JVal.jnum "-Infinity".data, (c :: rest).drop 9)
      else (lexNumber (c :: rest)).map (fun p => (JVal.jnum p.1, p.2))

/-- Model of `json.loads`: a single JSON value with optional
surrounding whitespace; anything else is a decode error (`none`). -/
def jsonLoads (s : List Char) : Option JVal :=
  match parseVal (s.length + 1) s with
  | some (v, rest) => if (skipWs rest).isEmpty then some v else none
  | none => none

/-! ## Verdict schema validation

Models the list comprehension at services.py line 180:
`[schemas.AIEvaluationResponse(**item) for item in evaluations_data]`.
`AIEvaluationResponse` (schemas.py lines 24-27) has a `uuid.UUID`
field `task_answer_id` and a `bool` field `correct`; pydantic raises
(a non-`JSONDecodeError` exception) on a missing key, a wrong type or
a string that is not a UUID.  A `none` result of `validateEvals`
therefore models an exception that escapes the chunk-level handler.

Simplifications (none of them reachable from the theorems below):
the UUID check models `uuid.UUID(str)`'s dash-stripping but not its
brace/urn forms, and the accepted string is kept verbatim rather than
normalised; `correct` accepts only JSON booleans, not pydantic's lax
int/str coercions; iterating a non-list JSON toplevel (which in Python
raises for every case except the degenerate empty dict / empty string)
is modelled as an unconditional validation failure. -/

/-- `uuid.UUID(s)` acceptance: after removing dashes, 32 hex digits. -/
def isUuidLike (s : List Char) : Bool :=
  let t := s.filter (fun c => !(c = '-'))
  t.length = 32 && t.all isHexDigitCh

/-- Dictionary lookup on a parsed JSON object; later duplicate keys
shadow earlier ones, as in a Python dict built by `json.loads`. -/
def jlookup (k : List Char) (kvs : List (List Char × JVal)) : Option JVal :=
  (kvs.reverse.find? (fun p => p.1 = k)).map Prod.snd

/-- One `AIEvaluationResponse(**item)` construction. -/
def validateItem (v : JVal) : Option (List Char × Bool) :=
  match v with
  | JVal.jobj kvs =>
    match jlookup "task_answer_id".data kvs, jlookup "correct".data kvs with
    | some (JVal.jstr idv), some (JVal.jbool b) =>
      if isUuidLike idv then some (idv, b) else none
    | _, _ => none
  | _ => none

/-- The whole comprehension: all items must validate. -/
def validateEvals (v : JVal) : Option (List (List Char × Bool)) :=
  match v with
  | JVal.jarr items => items.mapM validateItem
  | _ => none

/-- Outcome of cleaning and decoding one chunk's raw text
(services.py lines 176-183). `decodeError` is the caught
`json.JSONDecodeError`; `validationError` is any exception raised by
the comprehension, which the chunk-level handler does NOT catch. -/
inductive ChunkParse where
  | decodeError
  | validationError
  | ok (evs : List (List Char × Bool))
deriving DecidableEq

def parseChunkResponse (text : List Char) : ChunkParse :=
  match jsonLoads (clean text) with
  | none => ChunkParse.decodeError
  | some v =>
    match validateEvals v with
    | none => ChunkParse.validationError
    | some evs => ChunkParse.ok evs

/-! ## Pydantic schemas (schemas.py) -/

/-- schemas.AnswerForEval: one answer sent for evaluation. -/
structure AnswerForEval where
  task_answer_id : List Char
  answer : List Char
deriving DecidableEq

/-- schemas.EvaluationPayload: the payload for one question. -/
structure EvaluationPayload where
  question : List Char
  preferred_answer : Option (List Char)
  answers : List AnswerForEval
deriving DecidableEq

/-- schemas.ServiceEvaluationResult: evaluations plus usage metadata. -/
structure ServiceEvaluationResult where
  evaluations : List (List Char × Bool)
  duration : Int
  prompt_tokens : Int
  candidates_tokens : Int
  total_tokens : Int
deriving DecidableEq

/-! ## The external grader call

`google.genai`'s `usage_metadata` has `Optional[int]` counters, and
`generate_content` may raise; both are part of the oracle. -/

structure UsageMetadata where
  prompt_token_count : Option Int
  candidates_token_count : Option Int
  total_token_count : Option Int
deriving DecidableEq

structure GraderResponse where
  usage_metadata : Option UsageMetadata
  text : List Char
deriving DecidableEq

inductive CallResult where
  | raise
  | ok (duration : Int) (resp : GraderResponse)
deriving DecidableEq

/-- The kinds of exception that can reach the outer handler of
`evaluate_answers_with_ai` (services.py lines 200-202). -/
inductive PyError where
  | graderCallError
  | typeError
  | validationError
deriving DecidableEq

/-! ## Chunking (services.py lines 125-126)

`for i in range(0, len(all_answers), chunk_size):
   chunk = all_answers[i:i + chunk_size]`
Fuel-based for kernel evaluation; the source always calls it with
`chunk_size = 10` (line 116). -/

def chunkListF (fuel c : Nat) (l : List AnswerForEval) : List (List AnswerForEval) :=
  match fuel, l with
  | _, [] => []
  | 0, _ => []
  | fuel+1, a :: t =>
    if c = 0 then [] else (a :: t).take c :: chunkListF fuel c ((a :: t).drop c)

def chunkList (c : Nat) (l : List AnswerForEval) : List (List AnswerForEval) :=
  chunkListF l.length c l

/-! ## The orchestrator: `evaluate_answers_with_ai` (services.py) -/

/-- The running accumulators of the chunk loop
(services.py lines 117-121). -/
structure AggState where
  evaluations : List (List Char × Bool)
  total_duration : Int
  total_prompt_tokens : Int
  total_candidates_tokens : Int
  total_tokens : Int
deriving DecidableEq

def initAgg : AggState := ⟨[], 0, 0, 0, 0⟩

/-- The body of one iteration of the chunk loop
(services.py lines 149-185): duration is accumulated for every
completed call; token counters are accumulated when `usage_metadata`
is present (a `None` counter raises `TypeError` on `+=`); then, for a
truthy `response.text`, the cleaned text is decoded — a
`json.JSONDecodeError` is caught and the chunk skipped, while a
validation error propagates. -/
def processChunk (st : AggState) (res : CallResult) : Except PyError AggState :=
  match res with
  | CallResult.raise => Except.error PyError.graderCallError
  | CallResult.ok dur resp =>
    let st1 : AggState := { st with total_duration := st.total_duration + dur }
    match
      (match resp.usage_metadata with
       | none => Except.ok st1
       | some um =>
         match um.prompt_token_count with
         | none => Except.error PyError.typeError
         | some p =>
           match um.candidates_token_count with
           | none => Except.error PyError.typeError
           | some cd =>
             match um.total_token_count with
             | none => Except.error PyError.typeError
             | some t =>
               Except.ok { st1 with
                 total_prompt_tokens := st1.total_prompt_tokens + p
                 total_candidates_tokens := st1.total_candidates_tokens + cd
                 total_tokens := st1.total_tokens + t }) with
    | Except.error e => Except.error e
    | Except.ok st2 =>
      if resp.text.isEmpty then Except.ok st2
      else
        match parseChunkResponse resp.text with
        | ChunkParse.decodeError => Except.ok st2
        | ChunkParse.validationError => Except.error PyError.validationError
        | ChunkParse.ok evs => Except.ok { st2 with evaluations := st2.evaluations ++ evs }

/-- The chunk loop itself; `i` is the chunk position, used to query
the oracle.  The chunk's content only shapes the outbound request,
which has no observable effect in the model. -/
def processChunks (oracle : Nat → CallResult) (st : AggState) (i : Nat) :
    List (List AnswerForEval) → Except PyError AggState
  | [] => Except.ok st
  | _chunk :: rest =>
    match processChunk st (oracle i) with
    | Except.error e => Except.error e
    | Except.ok st' => processChunks oracle st' (i + 1) rest

/-- services.py lines 114-198: everything inside the outer `try`. -/
def evaluateBody (payload : EvaluationPayload) (oracle : Nat → CallResult) :
    Except PyError (Option ServiceEvaluationResult) :=
  match processChunks oracle initAgg 0 (chunkList 10 payload.answers) with
  | Except.error e => Except.error e
  | Except.ok st =>
    if st.evaluations.isEmpty then Except.ok none
    else Except.ok (some ⟨st.evaluations, st.total_duration, st.total_prompt_tokens,
                          st.total_candidates_tokens, st.total_tokens⟩)

/-- services.py lines 29-202: the outer `try`/`except Exception`
converts every raised exception into a `None` return. -/
def evaluate_answers_with_ai (payload : EvaluationPayload) (oracle : Nat → CallResult) :
    Option ServiceEvaluationResult :=
  match evaluateBody payload oracle with
  | Except.ok r => r
  | Except.error _ => none

/-! ## The grader's wire format for verdicts

`serializeVerdicts` renders a verdict mapping as the JSON array of
objects with keys `task_answer_id` and `correct` that the system
instruction (services.py lines 64-71) demands of the grader; it is the
reference serialisation for the round-trip property.  `fenceWrap`
wraps a text in the markdown code fence the grader is allowed to emit
(services.py line 97 shows the fenced few-shot answer). -/

def serItem (id : List Char) (b : Bool) : List Char :=
  lbrace :: '"' :: ("task_answer_id".data ++ '"' :: ':' :: '"' ::
    (id ++ '"' :: ',' :: '"' :: ("correct".data ++ '"' :: ':' ::
      ((if b then "true".data else "false".data) ++ [rbrace]))))

def serItems : List (List Char × Bool) → List Char
  | [] => []
  | [v] => serItem v.1 v.2
  | v :: vs => serItem v.1 v.2 ++ ',' :: serItems vs

def serializeVerdicts (l : List (List Char × Bool)) : List Char :=
  '[' :: (serItems l ++ [']'])

def fenceWrap (s : List Char) : List Char :=
  "```json\n".data ++ s ++ "\n```".data

/-! ## The relational store (models.py) and repository (crud.py)

The store is modelled as in-memory lists; SQLAlchemy's generated
`RequestLog.id` primary key is left out (rows are identified by
position in the append-only list).  A session environment says which
commits raise, modelling repository failures of the external store. -/

structure Question where
  id : List Char
  subject_id : List Char
  question_text : List Char
  preferred_answer : Option (List Char)
deriving DecidableEq

structure TaskAnswer where
  id : List Char
  subject_id : List Char
  question_id : List Char
  student_id : List Char
  answer : List Char
  ground_truth : Bool
  status : Option Bool
deriving DecidableEq

structure RequestLog where
  request_time : Int
  question_count : Nat
  prompt_token_count : Int
  candidates_token_count : Int
  total_token_count : Int
  question_id : List Char
deriving DecidableEq

structure DB where
  questions : List Question
  task_answers : List TaskAnswer
  request_logs : List RequestLog
deriving DecidableEq

/-- crud.get_all_questions_with_answers: every question together with
its joined task answers (the ORM relationship matches on
`question_id`). -/
def get_all_questions_with_answers (db : DB) : List (Question × List TaskAnswer) :=
  db.questions.map (fun q => (q, db.task_answers.filter (fun a => a.question_id = q.id)))

/-- Replace the first element satisfying `p` (SQLAlchemy's
`.filter(...).first()` followed by a field assignment). -/
def updateFirst (p : TaskAnswer → Bool) (f : TaskAnswer → TaskAnswer) :
    List TaskAnswer → List TaskAnswer
  | [] => []
  | x :: xs => if p x then f x :: xs else x :: updateFirst p f xs

/-- crud.update_task_answer_status (crud.py lines 13-22): find the
answer by id, set its `status`, return it; `None` and no write when
the id is absent. -/
def update_task_answer_status (db : DB) (task_answer_id : List Char) (is_correct : Bool) :
    DB × Option TaskAnswer :=
  match db.task_answers.find? (fun a => a.id = task_answer_id) with
  | none => (db, none)
  | some a =>
    ({ db with task_answers :=
        (updateFirst (fun x => x.id = task_answer_id)
          (fun x => { x with status := some is_correct }) db.task_answers) },
     some { a with status := some is_correct })

/-- crud.create_request_log (crud.py lines 24-32). -/
def create_request_log (db : DB) (log : RequestLog) : DB :=
  { db with request_logs := db.request_logs ++ [log] }

/-- Which repository commits raise; the repository is an external
collaborator, so its failures are environment inputs. -/
structure SessionEnv where
  update_raises : List Char → Bool
  log_raises : List Char → Bool

inductive DbError where
  | writeError
deriving DecidableEq

deriving instance DecidableEq for Except

def update_task_answer_status_f (env : SessionEnv) (db : DB)
    (task_answer_id : List Char) (is_correct : Bool) :
    Except DbError (DB × Option TaskAnswer) :=
  if env.update_raises task_answer_id then Except.error DbError.writeError
  else Except.ok (update_task_answer_status db task_answer_id is_correct)

def create_request_log_f (env : SessionEnv) (db : DB) (log : RequestLog) :
    Except DbError DB :=
  if env.log_raises log.question_id then Except.error DbError.writeError
  else Except.ok (create_request_log db log)

/-- An environment whose commits never raise. -/
def envNoFail (env : SessionEnv) : Prop :=
  (∀ id, env.update_raises id = false) ∧ (∀ id, env.log_raises id = false)

/-! ## The batch runner: `run_evaluation_and_update_db` (main.py) -/

/-- main.py lines 32-41: the payload built for one question. -/
def payloadOf (q : Question) (answers : List TaskAnswer) : EvaluationPayload :=
  ⟨q.question_text, q.preferred_answer, answers.map (fun a => ⟨a.id, a.answer⟩)⟩

/-- main.py lines 58-65: the usage-log row for one question. -/
def mkLogEntry (q : Question) (answers : List TaskAnswer) (r : ServiceEvaluationResult) :
    RequestLog :=
  ⟨r.duration, answers.length, r.prompt_tokens, r.candidates_tokens, r.total_tokens, q.id⟩

/-- main.py lines 49-54: the verdict-update loop.  Note there is no
`try` around it in the source: a raising commit propagates. -/
def applyEvaluations (env : SessionEnv) (db : DB) :
    List (List Char × Bool) → Except DbError DB
  | [] => Except.ok db
  | v :: vs =>
    match update_task_answer_status_f env db v.1 v.2 with
    | Except.error e => Except.error e
    | Except.ok (db', _) => applyEvaluations env db' vs

/-- main.py lines 29-67: the per-question body after the empty-answer
check — call the service, and on a truthy result write every verdict
and then one usage-log row; on `None` only log the failure. -/
def processQuestion (env : SessionEnv) (oracle : Nat → CallResult) (db : DB)
    (q : Question) (answers : List TaskAnswer) : Except DbError DB :=
  match evaluate_answers_with_ai (payloadOf q answers) oracle with
  | none => Except.ok db
  | some r =>
    match applyEvaluations env db r.evaluations with
    | Except.error e => Except.error e
    | Except.ok db1 => create_request_log_f env db1 (mkLogEntry q answers r)

/-- main.py lines 24-74: the question loop.  `oracle qi` is the grader
behaviour for the question at position `qi` of the fetched list.  The
2-second `time.sleep` pacing has no observable effect in the model. -/
def runQuestions (env : SessionEnv) (oracle : Nat → Nat → CallResult) (db : DB) :
    List (Nat × (Question × List TaskAnswer)) → Except DbError DB
  | [] => Except.ok db
  | (qi, (q, answers)) :: rest =>
    if answers.isEmpty then runQuestions env oracle db rest
    else
      match processQuestion env (oracle qi) db q answers with
      | Except.error e => Except.error e
      | Except.ok db' => runQuestions env oracle db' rest

/-- main.py lines 14-76: fetch all questions with their answers once,
then iterate.  An `Except.error` result is an exception escaping the
background task (there is no catch-all in the source). -/
def run_evaluation_and_update_db (env : SessionEnv) (oracle : Nat → Nat → CallResult)
    (db : DB) : Except DbError DB :=
  runQuestions env oracle db (get_all_questions_with_answers db).enum

/-! ## Helpers for stating the aggregation theorems -/

/-- A call result that completes the loop body without raising:
the call returned, every present usage counter is an `int`, and the
text (if truthy) does not trip schema validation. -/
def chunkBenign : CallResult → Bool
  | CallResult.raise => false
  | CallResult.ok _ resp =>
    (match resp.usage_metadata with
     | none => true
     | some um =>
       um.prompt_token_count.isSome && um.candidates_token_count.isSome &&
         um.total_token_count.isSome) &&
    (resp.text.isEmpty ||
      (match parseChunkResponse resp.text with
       | ChunkParse.validationError => false
       | _ => true))

/-- The verdicts a chunk contributes: those of a successful decode of
a truthy text, otherwise none. -/
def chunkVerdicts : CallResult → List (List Char × Bool)
  | CallResult.raise => []
  | CallResult.ok _ resp =>
    if resp.text.isEmpty then []
    else
      match parseChunkResponse resp.text with
      | ChunkParse.ok evs => evs
      | _ => []

def chunkDuration : CallResult → Int
  | CallResult.raise => 0
  | CallResult.ok d _ => d

def chunkPromptTok : CallResult → Int
  | CallResult.raise => 0
  | CallResult.ok _ resp =>
    match resp.usage_metadata with
    | none => 0
    | some um => um.prompt_token_count.getD 0

def chunkCandTok : CallResult → Int
  | CallResult.raise => 0
  | CallResult.ok _ resp =>
    match resp.usage_metadata with
    | none => 0
    | some um => um.candidates_token_count.getD 0

def chunkTotalTok : CallResult → Int
  | CallResult.raise => 0
  | CallResult.ok _ resp =>
    match resp.usage_metadata with
    | none => 0
    | some um => um.total_token_count.getD 0

/-- The oracle's answers for chunk positions `i, i+1, ..., i+n-1`. -/
def oracleResults (oracle : Nat → CallResult) (i : Nat) : Nat → List CallResult
  | 0 => []
  | n+1 => oracle i :: oracleResults oracle (i + 1) n

/-- Folding a list of call results into the accumulators. -/
def accumulate (st : AggState) (rs : List CallResult) : AggState :=
  ⟨st.evaluations ++ (rs.map chunkVerdicts).flatten,
   st.total_duration + (rs.map chunkDuration).sum,
   st.total_prompt_tokens + (rs.map chunkPromptTok).sum,
   st.total_candidates_tokens + (rs.map chunkCandTok).sum,
   st.total_tokens + (rs.map chunkTotalTok).sum⟩

/-- A task answer with its mutable `status` field blanked; the frame
theorems state that a run can change nothing else. -/
def eraseStatus (a : TaskAnswer) : TaskAnswer :=
  { a with status := none }

/-- The JSON value that `serItem` denotes. -/
def itemJVal (v : List Char × Bool) : JVal :=
  JVal.jobj [("task_answer_id".data, JVal.jstr v.1), ("correct".data, JVal.jbool v.2)]

/-- Every character the serialiser emits outside the ids themselves. -/
def serPool : List Char := "[],:\"\x7btask_answer_idcorrectruefls\x7d".data

/-- What `evaluate_answers_with_ai` returns when every chunk call is
benign: the concatenated verdicts of the decodable chunks and the
sums of every chunk's duration and token counters. -/
def benignResult (payload : EvaluationPayload) (oracle : Nat → CallResult) :
    Option ServiceEvaluationResult :=
  let rs := oracleResults oracle 0 (chunkList 10 payload.answers).length
  let evs := (rs.map chunkVerdicts).flatten
  if evs.isEmpty then none
  else some ⟨evs, (rs.map chunkDuration).sum, (rs.map chunkPromptTok).sum,
             (rs.map chunkCandTok).sum, (rs.map chunkTotalTok).sum⟩

/-! ## Concrete values used by the counterexamples and witnesses -/

def digitCh (d : Nat) : Char := Char.ofNat (48 + d)

/-- A canonical UUID string whose last two digits encode `k < 100`. -/
def uu (k : Nat) : List Char :=
  "00000000-0000-0000-0000-0000000000".data ++ [digitCh (k / 10 % 10), digitCh (k % 10)]

def envNone : SessionEnv := ⟨fun _ => false, fun _ => false⟩

def usageA : UsageMetadata := ⟨some 10, some 20, some 30⟩

def usageB : UsageMetadata := ⟨some 100, some 200, some 300⟩

/-- A payload with eleven identical answers: two chunks of 10 and 1. -/
def payloadC1 : EvaluationPayload :=
  ⟨"Q1".data, none, List.replicate 11 ⟨uu 0, "same answer".data⟩⟩

def txtC1 : List Char := serializeVerdicts [(uu 0, true)]

/-- Chunk 0 answers with one valid verdict; chunk 1's call raises. -/
def oracleC1 : Nat → CallResult := fun i =>
  if i = 0 then CallResult.ok 1 ⟨some usageA, txtC1⟩ else CallResult.raise

/-- Chunk 0 answers with one valid verdict; chunk 1 answers with
unparseable prose (a decode error, which the source isolates). -/
def oracleC1w : Nat → CallResult := fun i =>
  if i = 0 then CallResult.ok 1 ⟨some usageA, txtC1⟩
  else CallResult.ok 2 ⟨some usageB, "The grader rambled instead of emitting JSON".data⟩

def qidA : List Char := "11111111-1111-1111-1111-111111111111".data

def qidB : List Char := "11111111-1111-1111-1111-111111111112".data

def sidAB : List Char := "22222222-2222-2222-2222-222222222222".data

def stuAB : List Char := "33333333-3333-3333-3333-333333333333".data

def qA : Question := ⟨qidA, sidAB, "QA".data, none⟩

def qB : Question := ⟨qidB, sidAB, "QB".data, none⟩

def aA : TaskAnswer := ⟨uu 0, sidAB, qidA, stuAB, "tA".data, true, none⟩

def aB : TaskAnswer := ⟨uu 1, sidAB, qidB, stuAB, "tB".data, true, none⟩

/-- Two questions, one answer each, nothing graded yet. -/
def dbAB : DB := ⟨[qA, qB], [aA, aB], []⟩

/-- A session whose commit raises while updating answer `uu 0`. -/
def envC2 : SessionEnv := ⟨fun tid => decide (tid = uu 0), fun _ => false⟩

/-- Question A's grader answers its own answer id; question B's call raises. -/
def oracleC2 : Nat → Nat → CallResult := fun qi _ =>
  if qi = 0 then CallResult.ok 1 ⟨some usageA, serializeVerdicts [(uu 0, true)]⟩
  else CallResult.raise

/-- Question A's grader answers with question B's answer id. -/
def oracleC3 : Nat → Nat → CallResult := fun qi _ =>
  if qi = 0 then CallResult.ok 1 ⟨some usageA, serializeVerdicts [(uu 1, true)]⟩
  else CallResult.raise

def dbC3' : DB :=
  ⟨[qA, qB], [aA, { aB with status := some true }], [⟨1, 1, 10, 20, 30, qidA⟩]⟩

def qidC4 : List Char := "44444444-4444-4444-4444-444444444444".data

def qC4 : Question := ⟨qidC4, sidAB, "What is two plus two?".data, some "four".data⟩

def taskC4 (k : Nat) : TaskAnswer :=
  ⟨uu k, sidAB, qidC4, stuAB, "answer text".data, true, none⟩

def tasksC4 : List TaskAnswer := (List.range 12).map taskC4

/-- One question with answers A1..A12, nothing graded yet. -/
def dbC4 : DB := ⟨[qC4], tasksC4, []⟩

def payloadC4 : EvaluationPayload := payloadOf qC4 tasksC4

/-- The verdicts chunk 1 returns: A1..A10 all correct. -/
def verdsC4 : List (List Char × Bool) := (List.range 10).map (fun k => (uu k, true))

/-- Chunk 0: valid verdicts for A1..A10.  Chunk 1: a completed call
whose text is not JSON (decode error), with its own usage counters. -/
def oracleC4 : Nat → CallResult := fun i =>
  if i = 0 then CallResult.ok 1 ⟨some usageA, serializeVerdicts verdsC4⟩
  else CallResult.ok 2 ⟨some usageB, "I am sorry, I cannot grade these".data⟩

def resC4 : ServiceEvaluationResult := ⟨verdsC4, 3, 110, 220, 330⟩

def dbC4' : DB :=
  ⟨[qC4],
   (List.range 12).map (fun k => if k < 10 then { taskC4 k with status := some true } else taskC4 k),
   [⟨3, 12, 110, 220, 330, qidC4⟩]⟩

def stC4 : AggState := ⟨verdsC4, 3, 110, 220, 330⟩

/-! # Lemma layer -/

/-! ## Fuel irrelevance and unfolding for `pyReplace` -/

theorem pyReplaceF_fuel_eq (pat repl : List Char) (hpat : pat ≠ []) :
    ∀ (f1 f2 : Nat) (s : List Char), s.length ≤ f1 → s.length ≤ f2 →
      pyReplaceF pat repl f1 s = pyReplaceF pat repl f2 s := by
  intro f1
  induction f1 with
  | zero =>
    intro f2 s h1 _
    have hs : s = [] := List.eq_nil_of_length_eq_zero (Nat.le_zero.mp h1)
    subst hs
    cases f2 <;> rfl
  | succ f ih =>
    intro f2 s h1 h2
    cases s with
    | nil => cases f2 <;> rfl
    | cons c rest =>
      cases f2 with
      | zero => simp at h2
      | succ f2' =>
        have hplen : 1 ≤ pat.length := by
          cases pat with
          | nil => exact absurd rfl hpat
          | cons p ps => simp
        have hlen : rest.length ≤ f := by simpa using h1
        have hlen2 : rest.length ≤ f2' := by simpa using h2
        simp only [pyReplaceF]
        by_cases hp : pat.isPrefixOf (c :: rest) = true
        · rw [if_pos hp, if_pos hp]
          have hd : ((c :: rest).drop pat.length).length ≤ rest.length := by
            simp only [List.length_drop, List.length_cons]
            omega
          rw [ih f2' _ (Nat.le_trans hd hlen) (Nat.le_trans hd hlen2)]
        · rw [if_neg hp, if_neg hp]
          rw [ih f2' rest hlen hlen2]

theorem pyReplace_cons (pat repl : List Char) (hpat : pat ≠ []) (c : Char) (rest : List Char) :
    pyReplace pat repl (c :: rest) =
      if pat.isPrefixOf (c :: rest) then
        repl ++ pyReplace pat repl ((c :: rest).drop pat.length)
      else c :: pyReplace pat repl rest := by
  have hplen : 1 ≤ pat.length := by
    cases pat with
    | nil => exact absurd rfl hpat
    | cons p ps => simp
  show pyReplaceF pat repl (rest.length + 1) (c :: rest) = _
  simp only [pyReplaceF]
  by_cases hp : pat.isPrefixOf (c :: rest) = true
  · rw [if_pos hp, if_pos hp]
    have hd : ((c :: rest).drop pat.length).length ≤ rest.length := by
      simp only [List.length_drop, List.length_cons]
      omega
    rw [pyReplaceF_fuel_eq pat repl hpat rest.length ((c :: rest).drop pat.length).length _ hd
      (Nat.le_refl _)]
    rfl
  · rw [if_neg hp, if_neg hp]
    rfl

theorem pyReplace_append_no_head (p' repl : List Char) (b : Char) :
    ∀ (u t : List Char), (∀ x ∈ u, x ≠ b) →
      pyReplace (b :: p') repl (u ++ t) = u ++ pyReplace (b :: p') repl t := by
  intro u
  induction u with
  | nil => intro t _; rfl
  | cons c u ih =>
    intro t h
    have hcb : c ≠ b := h c (by simp)
    rw [List.cons_append, pyReplace_cons _ _ (by simp)]
    have hp : ¬ ((b :: p').isPrefixOf (c :: (u ++ t)) = true) := by
      simp only [List.isPrefixOf_cons₂, Bool.and_eq_true, beq_iff_eq, not_and]
      intro hbc
      exact absurd hbc.symm hcb
    rw [if_neg hp]
    rw [ih t (fun x hx => h x (by simp [hx]))]
    simp

theorem pyReplace_nil (pat repl : List Char) : pyReplace pat repl [] = [] := rfl

theorem pyReplace_eq_self (p' repl : List Char) (b : Char) (s : List Char)
    (h : ∀ x ∈ s, x ≠ b) : pyReplace (b :: p') repl s = s := by
  have := pyReplace_append_no_head p' repl b s [] h
  simpa [pyReplace_nil] using this

theorem pyReplace_head_match (pat repl : List Char) (hpat : pat ≠ []) (t : List Char) :
    pyReplace pat repl (pat ++ t) = repl ++ pyReplace pat repl t := by
  cases pat with
  | nil => exact absurd rfl hpat
  | cons b p' =>
    rw [List.cons_append, pyReplace_cons _ _ (by simp)]
    have hp : (b :: p').isPrefixOf (b :: (p' ++ t)) = true := by
      rw [List.isPrefixOf_iff_prefix]
      exact ⟨t, by simp⟩
    simp only [hp, if_true]
    rw [show (b :: (p' ++ t)) = (b :: p') ++ t from by simp, List.drop_left]

/-! ## `pyStrip` and `skipWs` -/

theorem skipWs_cons_of_not_ws (c : Char) (s : List Char) (hc : c.isWhitespace = false) :
    skipWs (c :: s) = c :: s := by
  unfold skipWs
  exact List.dropWhile_cons_of_neg (by simp [hc])

theorem pyStrip_cons_ws (c : Char) (s : List Char) (hc : c.isWhitespace = true) :
    pyStrip (c :: s) = pyStrip s := by
  unfold pyStrip
  rw [List.dropWhile_cons_of_pos (by simp [hc])]

theorem pyStrip_eq_self (c d : Char) (t : List Char)
    (hc : c.isWhitespace = false) (hd : d.isWhitespace = false) :
    pyStrip (c :: t ++ [d]) = c :: t ++ [d] := by
  unfold pyStrip
  rw [show (c :: t ++ [d]) = c :: (t ++ [d]) from by simp,
    List.dropWhile_cons_of_neg (by simp [hc])]
  rw [show (c :: (t ++ [d])).reverse = d :: (c :: t).reverse from by simp,
    List.dropWhile_cons_of_neg (by simp [hd])]
  simp

theorem pyStrip_ws_wrap (a b c d : Char) (t : List Char)
    (ha : a.isWhitespace = true) (hb : b.isWhitespace = true)
    (hc : c.isWhitespace = false) (hd : d.isWhitespace = false) :
    pyStrip (a :: ((c :: t ++ [d]) ++ [b])) = c :: t ++ [d] := by
  rw [pyStrip_cons_ws a _ ha]
  unfold pyStrip
  rw [show ((c :: t ++ [d]) ++ [b]) = c :: (t ++ [d] ++ [b]) from by simp,
    List.dropWhile_cons_of_neg (by simp [hc])]
  rw [show (c :: (t ++ [d] ++ [b])).reverse = b :: d :: (c :: t).reverse from by simp,
    List.dropWhile_cons_of_pos (by simp [hb]),
    List.dropWhile_cons_of_neg (by simp [hd])]
  simp

/-! ## `clean` on fence-free and fence-wrapped texts -/

theorem clean_of_plain (c d : Char) (t : List Char)
    (hc : c.isWhitespace = false) (hd : d.isWhitespace = false)
    (hb : ∀ x ∈ c :: t ++ [d], x ≠ btick) :
    clean (c :: t ++ [d]) = c :: t ++ [d] := by
  unfold clean
  rw [pyStrip_eq_self c d t hc hd]
  rw [show fenceJsonPat = btick :: "``json".data from by decide,
    pyReplace_eq_self _ _ _ _ hb]
  rw [show fencePat = btick :: "``".data from by decide,
    pyReplace_eq_self _ _ _ _ hb]
  exact pyStrip_eq_self c d t hc hd

theorem fenceWrap_split (s : List Char) :
    fenceWrap s = btick :: (("``json\n".data ++ s ++ "\n``".data) ++ [btick]) := by
  calc fenceWrap s = "```json\n".data ++ s ++ "\n```".data := rfl
    _ = (btick :: "``json\n".data) ++ s ++ ("\n``".data ++ [btick]) := by
        rw [show ("```json\n".data : List Char) = btick :: "``json\n".data from by decide,
          show ("\n```".data : List Char) = "\n``".data ++ [btick] from by decide]
    _ = btick :: (("``json\n".data ++ s ++ "\n``".data) ++ [btick]) := by
        simp [List.append_assoc]

theorem fenceWrap_as_pat (s : List Char) :
    fenceWrap s = fenceJsonPat ++ (('\n' :: (s ++ ['\n'])) ++ "```".data) := by
  calc fenceWrap s = "```json\n".data ++ s ++ "\n```".data := rfl
    _ = ("```json".data ++ ['\n']) ++ s ++ (['\n'] ++ "```".data) := by
        rw [show ("```json\n".data : List Char) = "```json".data ++ ['\n'] from by decide,
          show ("\n```".data : List Char) = ['\n'] ++ "```".data from by decide]
    _ = fenceJsonPat ++ (('\n' :: (s ++ ['\n'])) ++ "```".data) := by
        simp [fenceJsonPat, List.append_assoc]

theorem clean_fenceWrap (c d : Char) (t : List Char)
    (hc : c.isWhitespace = false) (hd : d.isWhitespace = false)
    (hb : ∀ x ∈ c :: t ++ [d], x ≠ btick) :
    clean (fenceWrap (c :: t ++ [d])) = c :: t ++ [d] := by
  have hnb : ∀ x ∈ '\n' :: ((c :: t ++ [d]) ++ ['\n']), x ≠ btick := by
    intro x hx
    simp only [List.mem_cons, List.mem_append, List.mem_singleton] at hx
    intro hxb
    subst hxb
    have h1 : ¬ (btick = '\n') := by decide
    have h2 : btick ∈ c :: t ++ [d] → False := fun hm => hb btick hm rfl
    simp only [List.mem_cons, List.mem_append, List.mem_singleton] at h2
    tauto
  have hstrip : pyStrip (fenceWrap (c :: t ++ [d])) = fenceWrap (c :: t ++ [d]) := by
    rw [fenceWrap_split]
    exact pyStrip_eq_self btick btick _ (by decide) (by decide)
  have hrepl1 : pyReplace fenceJsonPat [] (fenceWrap (c :: t ++ [d])) =
      ('\n' :: ((c :: t ++ [d]) ++ ['\n'])) ++ "```".data := by
    rw [fenceWrap_as_pat, pyReplace_head_match fenceJsonPat [] (by decide), List.nil_append]
    rw [show fenceJsonPat = btick :: "``json".data from by decide]
    rw [pyReplace_append_no_head _ _ _ _ _ hnb]
    rw [show pyReplace (btick :: "``json".data) [] "```".data = "```".data from by decide]
  have hrepl2 : pyReplace fencePat [] ((('\n' :: ((c :: t ++ [d]) ++ ['\n'])) ++ "```".data)) =
      '\n' :: ((c :: t ++ [d]) ++ ['\n']) := by
    rw [show fencePat = btick :: "``".data from by decide]
    rw [pyReplace_append_no_head _ _ _ _ _ hnb]
    rw [show pyReplace (btick :: "``".data) [] "```".data = [] from by decide]
    simp
  unfold clean
  rw [hstrip, hrepl1, hrepl2]
  exact pyStrip_ws_wrap '\n' '\n' c d t (by decide) (by decide) hc hd

/-! ## Chunking lemmas -/

theorem chunkListF_fuel_eq (c : Nat) (hc : 1 ≤ c) :
    ∀ (f1 f2 : Nat) (l : List AnswerForEval), l.length ≤ f1 → l.length ≤ f2 →
      chunkListF f1 c l = chunkListF f2 c l := by
  intro f1
  induction f1 with
  | zero =>
    intro f2 l h1 _
    have hl : l = [] := List.eq_nil_of_length_eq_zero (Nat.le_zero.mp h1)
    subst hl
    cases f2 <;> rfl
  | succ f ih =>
    intro f2 l h1 h2
    cases l with
    | nil => cases f2 <;> rfl
    | cons a t =>
      cases f2 with
      | zero => simp at h2
      | succ f2' =>
        simp only [chunkListF]
        rw [if_neg (by omega), if_neg (by omega)]
        have hd : ((a :: t).drop c).length ≤ t.length := by
          simp only [List.length_drop, List.length_cons]
          omega
        have hlen : t.length ≤ f := by simpa using h1
        have hlen2 : t.length ≤ f2' := by simpa using h2
        rw [ih f2' _ (Nat.le_trans hd hlen) (Nat.le_trans hd hlen2)]

theorem chunkList_nil (c : Nat) : chunkList c [] = [] := rfl

theorem chunkList_cons (c : Nat) (hc : 1 ≤ c) (l : List AnswerForEval) (hl : l ≠ []) :
    chunkList c l = l.take c :: chunkList c (l.drop c) := by
  cases l with
  | nil => exact absurd rfl hl
  | cons a t =>
    show chunkListF (t.length + 1) c (a :: t) = _
    simp only [chunkListF]
    rw [if_neg (by omega)]
    have hd : ((a :: t).drop c).length ≤ t.length := by
      simp only [List.length_drop, List.length_cons]
      omega
    rw [chunkListF_fuel_eq c hc t.length ((a :: t).drop c).length _ hd (Nat.le_refl _)]
    rfl

theorem chunkList_ne_nil (c : Nat) (hc : 1 ≤ c) (l : List AnswerForEval) (hl : l ≠ []) :
    chunkList c l ≠ [] := by
  rw [chunkList_cons c hc l hl]
  simp

theorem getLast?_cons_of_ne_nil {α : Type} (a : α) (xs : List α) (h : xs ≠ []) :
    (a :: xs).getLast? = xs.getLast? := by
  cases xs with
  | nil => exact absurd rfl h
  | cons b ys => exact List.getLast?_cons_cons

/-- Claim C5: the chunking step produces `⌈L/C⌉` chunks in input
order, every chunk except possibly the last of size exactly `C`, the
last of size `L mod C` (or `C` when `C` divides `L`), and their
concatenation is the original list — nothing duplicated or dropped. -/
theorem chunkList_spec (c : Nat) (hc : 0 < c) (l : List AnswerForEval) :
    (chunkList c l).length = (l.length + c - 1) / c ∧
    (chunkList c l).flatten = l ∧
    (∀ ch ∈ (chunkList c l).dropLast, ch.length = c) ∧
    (∀ ch, (chunkList c l).getLast? = some ch →
      ch.length = if l.length % c = 0 then c else l.length % c) := by
  suffices H : ∀ (n : Nat) (l : List AnswerForEval), l.length ≤ n →
      (chunkList c l).length = (l.length + c - 1) / c ∧
      (chunkList c l).flatten = l ∧
      (∀ ch ∈ (chunkList c l).dropLast, ch.length = c) ∧
      (∀ ch, (chunkList c l).getLast? = some ch →
        ch.length = if l.length % c = 0 then c else l.length % c) by
    exact H l.length l (Nat.le_refl _)
  intro n
  induction n with
  | zero =>
    intro l hl
    have h0 : l = [] := List.eq_nil_of_length_eq_zero (Nat.le_zero.mp hl)
    subst h0
    refine ⟨?_, rfl, ?_, ?_⟩
    · rw [chunkList_nil]
      simp only [List.length_nil]
      rw [Nat.div_eq_of_lt (by omega)]
    · intro ch hch
      rw [chunkList_nil] at hch
      simp at hch
    · intro ch hch
      rw [chunkList_nil] at hch
      simp at hch
  | succ n ih =>
    intro l hl
    by_cases hnil : l = []
    · subst hnil
      refine ⟨?_, rfl, ?_, ?_⟩
      · rw [chunkList_nil]
        simp only [List.length_nil]
        rw [Nat.div_eq_of_lt (by omega)]
      · intro ch hch
        rw [chunkList_nil] at hch
        simp at hch
      · intro ch hch
        rw [chunkList_nil] at hch
        simp at hch
    · have hL1 : 1 ≤ l.length := by
        cases l with
        | nil => exact absurd rfl hnil
        | cons a t => simp
      rw [chunkList_cons c hc l hnil]
      by_cases hcase : l.length ≤ c
      · have hdrop : l.drop c = [] := List.drop_eq_nil_of_le hcase
        have htake : l.take c = l := List.take_of_length_le hcase
        rw [hdrop, chunkList_nil]
        refine ⟨?_, by simp [htake], ?_, ?_⟩
        · have h1 : (l.length + c - 1) / c = 1 := Nat.div_eq_of_lt_le (by omega) (by omega)
          simp only [List.length_cons, List.length_nil, h1]
        · intro ch hch
          simp at hch
        · intro ch hch
          simp only [List.getLast?_singleton, Option.some_inj] at hch
          subst hch
          rw [htake]
          by_cases heq : l.length = c
          · rw [heq, Nat.mod_self]
            simp
          · have hlt : l.length < c := by omega
            have hmod : l.length % c = l.length := Nat.mod_eq_of_lt hlt
            rw [if_neg (by rw [hmod]; omega)]
            exact hmod.symm
      · push_neg at hcase
        have hdlen : (l.drop c).length ≤ n := by
          simp only [List.length_drop]
          omega
        have hdropne : l.drop c ≠ [] := by
          intro habs
          rw [List.drop_eq_nil_iff] at habs
          omega
        obtain ⟨ih1, ih2, ih3, ih4⟩ := ih (l.drop c) hdlen
        have hchne : chunkList c (l.drop c) ≠ [] := chunkList_ne_nil c hc _ hdropne
        refine ⟨?_, ?_, ?_, ?_⟩
        · simp only [List.length_cons, ih1, List.length_drop]
          have e1 : l.length - c + c - 1 = l.length - 1 := by omega
          have e2 : l.length + c - 1 = (l.length - 1) + c := by omega
          rw [e1, e2, Nat.add_div_right _ hc]
        · simp only [List.flatten_cons, ih2, List.take_append_drop]
        · intro ch hch
          rw [List.dropLast_cons_of_ne_nil hchne] at hch
          rcases List.mem_cons.mp hch with h | h
          · subst h
            simp only [List.length_take]
            omega
          · exact ih3 ch h
        · intro ch hch
          rw [getLast?_cons_of_ne_nil _ _ hchne] at hch
          have := ih4 ch hch
          rw [List.length_drop] at this
          have hmod : l.length % c = (l.length - c) % c := by
            conv_lhs => rw [show l.length = c + (l.length - c) from by omega]
            exact Nat.add_mod_left c _
          rw [hmod]
          exact this

/-! ## JSON reader stepping lemmas

The reader is fuel-structural, so applications whose stuck points are
only the variable parts (an id inside a string, a lower fuel) reduce
definitionally; each helper below captures one such reduction. -/

theorem parseStringBody_exact : ∀ (id r : List Char) (fuel : Nat),
    (∀ x ∈ id, x ≠ '"' ∧ x ≠ '\\') → id.length < fuel →
    parseStringBody fuel (id ++ '"' :: r) = some (id, r) := by
  intro id
  induction id with
  | nil =>
    intro r fuel _ hf
    cases fuel with
    | zero => omega
    | succ f => rfl
  | cons c id ih =>
    intro r fuel h hf
    cases fuel with
    | zero => omega
    | succ f =>
      have hc := h c (by simp)
      show parseStringBody (f + 1) (c :: (id ++ '"' :: r)) = _
      simp only [parseStringBody]
      rw [if_neg hc.1, if_neg hc.2]
      rw [ih r f (fun x hx => h x (by simp [hx])) (by simp at hf; omega)]
      rfl

theorem parseVal_quote (f : Nat) (X : List Char) :
    parseVal (f+1) ('"' :: X) =
      (parseStringBody X.length X).map (fun p => (JVal.jstr p.1, p.2)) := rfl

theorem parseVal_strVal (id T : List Char) (fuel : Nat) (hf : 1 ≤ fuel)
    (hid : ∀ x ∈ id, x ≠ '"' ∧ x ≠ '\\') :
    parseVal fuel ('"' :: (id ++ '"' :: T)) = some (JVal.jstr id, T) := by
  obtain ⟨f, rfl⟩ : ∃ f, fuel = f + 1 := ⟨fuel - 1, by omega⟩
  rw [parseVal_quote]
  rw [parseStringBody_exact id T _ hid (by simp)]
  rfl

theorem parseVal_objStep (f : Nat) (X : List Char) :
    parseVal (f+1) (lbrace :: '"' :: X) =
      (match parseStringBody X.length X with
       | none => none
       | some (k, r1) =>
         match skipWs r1 with
         | ':' :: r2 =>
           (match parseVal f r2 with
            | none => none
            | some (v, r3) =>
              match skipWs r3 with
              | ',' :: r4 =>
                (match parseVal f (lbrace :: r4) with
                 | some (JVal.jobj kvs, r5) => some (JVal.jobj ((k, v) :: kvs), r5)
                 | _ => none)
              | d :: r4 => if d = rbrace then some (JVal.jobj [(k, v)], r4) else none
              | _ => none)
         | _ => none) := rfl

theorem parseVal_obj_afterKey (f : Nat) (X k r2 : List Char)
    (hk : parseStringBody X.length X = some (k, ':' :: r2)) :
    parseVal (f+1) (lbrace :: '"' :: X) =
      (match parseVal f r2 with
       | none => none
       | some (v, r3) =>
         match skipWs r3 with
         | ',' :: r4 =>
           (match parseVal f (lbrace :: r4) with
            | some (JVal.jobj kvs, r5) => some (JVal.jobj ((k, v) :: kvs), r5)
            | _ => none)
         | d :: r4 => if d = rbrace then some (JVal.jobj [(k, v)], r4) else none
         | _ => none) := by
  rw [parseVal_objStep, hk]
  rfl

theorem parseVal_objPair (f : Nat) (X k r2 : List Char) (v : JVal) (r : List Char)
    (hk : parseStringBody X.length X = some (k, ':' :: r2))
    (hv : parseVal f r2 = some (v, rbrace :: r)) :
    parseVal (f+1) (lbrace :: '"' :: X) = some (JVal.jobj [(k, v)], r) := by
  rw [parseVal_obj_afterKey f X k r2 hk, hv]
  rfl

theorem parseVal_obj_afterVal (f : Nat) (X k r2 : List Char) (v : JVal) (r4 : List Char)
    (hk : parseStringBody X.length X = some (k, ':' :: r2))
    (hv : parseVal f r2 = some (v, ',' :: r4)) :
    parseVal (f+1) (lbrace :: '"' :: X) =
      (match parseVal f (lbrace :: r4) with
       | some (JVal.jobj kvs, r5) => some (JVal.jobj ((k, v) :: kvs), r5)
       | _ => none) := by
  rw [parseVal_obj_afterKey f X k r2 hk, hv]
  rfl

theorem parseVal_objCons (f : Nat) (X k r2 : List Char) (v : JVal) (r4 : List Char)
    (kvs : List (List Char × JVal)) (r5 : List Char)
    (hk : parseStringBody X.length X = some (k, ':' :: r2))
    (hv : parseVal f r2 = some (v, ',' :: r4))
    (hrest : parseVal f (lbrace :: r4) = some (JVal.jobj kvs, r5)) :
    parseVal (f+1) (lbrace :: '"' :: X) = some (JVal.jobj ((k, v) :: kvs), r5) := by
  rw [parseVal_obj_afterVal f X k r2 v r4 hk hv, hrest]

theorem parseVal_bool (b : Bool) (X : List Char) (f : Nat) :
    parseVal (f+1) ((if b then "true".data else "false".data) ++ rbrace :: X) =
      some (JVal.jbool b, rbrace :: X) := by
  cases b <;> rfl

theorem parseVal_serItem (id : List Char) (b : Bool) (r : List Char) (fuel : Nat)
    (hid : ∀ x ∈ id, x ≠ '"' ∧ x ≠ '\\') (hf : 3 ≤ fuel) :
    parseVal fuel (serItem id b ++ r) = some (itemJVal (id, b), r) := by
  obtain ⟨f, rfl⟩ : ∃ f, fuel = f + 3 := ⟨fuel - 3, by omega⟩
  have hform : serItem id b ++ r = lbrace :: '"' :: ("task_answer_id".data ++ '"' :: ':' :: '"' ::
      (id ++ '"' :: ',' :: '"' :: ("correct".data ++ '"' :: ':' ::
        ((if b then "true".data else "false".data) ++ rbrace :: r)))) := by
    simp [serItem, List.append_assoc]
  rw [hform, show f + 3 = (f + 2) + 1 from rfl]
  have hinner : parseVal (f + 2)
      (lbrace :: '"' :: ("correct".data ++ '"' :: ':' ::
        ((if b then "true".data else "false".data) ++ rbrace :: r))) =
      some (JVal.jobj [("correct".data, JVal.jbool b)], r) := by
    rw [show f + 2 = (f + 1) + 1 from rfl]
    exact parseVal_objPair (f + 1) _ "correct".data _ (JVal.jbool b) r
      (parseStringBody_exact "correct".data _ _ (by decide) (by simp))
      (parseVal_bool b r f)
  exact parseVal_objCons (f + 2) _ "task_answer_id".data _ (JVal.jstr id) _ _ r
    (parseStringBody_exact "task_answer_id".data _ _ (by decide) (by simp))
    (parseVal_strVal id _ (f + 2) (by omega) hid)
    hinner

theorem parseVal_arrStep (f : Nat) (X : List Char) :
    parseVal (f+1) ('[' :: lbrace :: X) =
      (match parseVal f (lbrace :: X) with
       | none => none
       | some (v, r1) =>
         match skipWs r1 with
         | ',' :: r2 =>
           (match parseVal f ('[' :: r2) with
            | some (JVal.jarr vs, r3) => some (JVal.jarr (v :: vs), r3)
            | _ => none)
         | ']' :: r2 => some (JVal.jarr [v], r2)
         | _ => none) := rfl

theorem parseVal_arr_last (f : Nat) (X : List Char) (v : JVal) (r2 : List Char)
    (hv : parseVal f (lbrace :: X) = some (v, ']' :: r2)) :
    parseVal (f+1) ('[' :: lbrace :: X) = some (JVal.jarr [v], r2) := by
  rw [parseVal_arrStep, hv]
  rfl

theorem parseVal_arr_afterItem (f : Nat) (X : List Char) (v : JVal) (r2 : List Char)
    (hv : parseVal f (lbrace :: X) = some (v, ',' :: r2)) :
    parseVal (f+1) ('[' :: lbrace :: X) =
      (match parseVal f ('[' :: r2) with
       | some (JVal.jarr vs, r3) => some (JVal.jarr (v :: vs), r3)
       | _ => none) := by
  rw [parseVal_arrStep, hv]
  rfl

theorem parseVal_arr_cons (f : Nat) (X : List Char) (v : JVal) (r2 : List Char)
    (vs : List JVal) (r3 : List Char)
    (hv : parseVal f (lbrace :: X) = some (v, ',' :: r2))
    (hrest : parseVal f ('[' :: r2) = some (JVal.jarr vs, r3)) :
    parseVal (f+1) ('[' :: lbrace :: X) = some (JVal.jarr (v :: vs), r3) := by
  rw [parseVal_arr_afterItem f X v r2 hv, hrest]

/-! ## Decoding a serialised verdict array -/

theorem serItems_length_ge : ∀ l : List (List Char × Bool), l.length ≤ (serItems l).length := by
  intro l
  induction l with
  | nil => simp [serItems]
  | cons v vs ih =>
    cases vs with
    | nil =>
      show [v].length ≤ (serItems [v]).length
      rw [show serItems [v] = serItem v.1 v.2 from rfl]
      simp [serItem]
    | cons w ws =>
      show (v :: w :: ws).length ≤ (serItem v.1 v.2 ++ ',' :: serItems (w :: ws)).length
      simp only [List.length_append, List.length_cons, serItem] at ih ⊢
      omega

theorem parseVal_serItems : ∀ (l : List (List Char × Bool)) (r : List Char) (fuel : Nat),
    l ≠ [] →
    (∀ p ∈ l, ∀ x ∈ p.1, x ≠ '"' ∧ x ≠ '\\') → l.length + 3 ≤ fuel →
    parseVal fuel ('[' :: (serItems l ++ ']' :: r)) = some (JVal.jarr (l.map itemJVal), r) := by
  intro l
  induction l with
  | nil => intro r fuel h; exact absurd rfl h
  | cons v vs ih =>
    intro r fuel _ hids hf
    obtain ⟨f, rfl⟩ : ∃ f, fuel = f + 1 := ⟨fuel - 1, by omega⟩
    cases vs with
    | nil =>
      obtain ⟨X, hX⟩ : ∃ X, serItem v.1 v.2 ++ ']' :: r = lbrace :: X := ⟨_, rfl⟩
      have hv : parseVal f (lbrace :: X) = some (itemJVal v, ']' :: r) := by
        rw [← hX]
        exact parseVal_serItem v.1 v.2 (']' :: r) f (hids v (by simp))
          (by simp at hf; omega)
      show parseVal (f + 1) ('[' :: (serItem v.1 v.2 ++ ']' :: r)) = _
      rw [hX]
      rw [parseVal_arr_last f X (itemJVal v) r hv]
      rfl
    | cons w ws =>
      have hform : serItems (v :: w :: ws) ++ ']' :: r =
          serItem v.1 v.2 ++ ',' :: (serItems (w :: ws) ++ ']' :: r) := by
        show (serItem v.1 v.2 ++ ',' :: serItems (w :: ws)) ++ ']' :: r = _
        simp [List.append_assoc]
      obtain ⟨X, hX⟩ : ∃ X, serItem v.1 v.2 ++ ',' :: (serItems (w :: ws) ++ ']' :: r) =
          lbrace :: X := ⟨_, rfl⟩
      have hv : parseVal f (lbrace :: X) =
          some (itemJVal v, ',' :: (serItems (w :: ws) ++ ']' :: r)) := by
        rw [← hX]
        exact parseVal_serItem v.1 v.2 _ f (hids v (by simp)) (by simp at hf; omega)
      have hrest : parseVal f ('[' :: (serItems (w :: ws) ++ ']' :: r)) =
          some (JVal.jarr ((w :: ws).map itemJVal), r) :=
        ih r f (by simp) (fun p hp => hids p (by simp [hp])) (by simp at hf ⊢; omega)
      rw [hform, hX]
      rw [parseVal_arr_cons f X (itemJVal v) _ ((w :: ws).map itemJVal) r hv hrest]
      rfl

theorem jsonLoads_serializeVerdicts (l : List (List Char × Bool))
    (hids : ∀ p ∈ l, ∀ x ∈ p.1, x ≠ '"' ∧ x ≠ '\\') :
    jsonLoads (serializeVerdicts l) = some (JVal.jarr (l.map itemJVal)) := by
  cases l with
  | nil => rfl
  | cons v vs =>
    have hlen : (v :: vs).length + 3 ≤ ('[' :: (serItems (v :: vs) ++ ']' :: [])).length + 1 := by
      have h := serItems_length_ge (v :: vs)
      simp only [List.length_cons, List.length_append, List.length_nil] at h ⊢
      omega
    have h := parseVal_serItems (v :: vs) [] (('[' :: (serItems (v :: vs) ++ ']' :: [])).length + 1)
      (by simp) hids hlen
    rw [show serializeVerdicts (v :: vs) = '[' :: (serItems (v :: vs) ++ ']' :: []) from rfl]
    unfold jsonLoads
    rw [h]
    rfl

/-! ## Validating the decoded array -/

theorem validateItem_itemJVal (v : List Char × Bool) :
    validateItem (itemJVal v) = if isUuidLike v.1 then some v else none := rfl

theorem validateEvals_map (l : List (List Char × Bool))
    (hids : ∀ p ∈ l, isUuidLike p.1 = true) :
    validateEvals (JVal.jarr (l.map itemJVal)) = some l := by
  show (l.map itemJVal).mapM validateItem = some l
  induction l with
  | nil => rfl
  | cons v vs ih =>
    rw [List.map_cons, List.mapM_cons, validateItem_itemJVal v, if_pos (hids v (by simp))]
    rw [ih (fun p hp => hids p (by simp [hp]))]
    rfl

/-! ## Character classes of canonical UUID strings -/

theorem uuid_char_cases (id : List Char) (hid : isUuidLike id = true) :
    ∀ x ∈ id, x = '-' ∨ isHexDigitCh x = true := by
  intro x hx
  by_cases hdash : x = '-'
  · exact Or.inl hdash
  · right
    unfold isUuidLike at hid
    simp only [Bool.and_eq_true, List.all_eq_true, decide_eq_true_eq] at hid
    refine hid.2 x ?_
    rw [List.mem_filter]
    exact ⟨hx, by simp [hdash]⟩

theorem hexOrDash_props (x : Char) (h : x = '-' ∨ isHexDigitCh x = true) :
    (x ≠ '"' ∧ x ≠ '\\') ∧ x ≠ btick ∧ x.isWhitespace = false := by
  rcases h with rfl | h
  · exact ⟨⟨by decide, by decide⟩, by decide, by decide⟩
  · refine ⟨⟨?_, ?_⟩, ?_, ?_⟩
    · intro heq; subst heq; exact absurd h (by decide)
    · intro heq; subst heq; exact absurd h (by decide)
    · intro heq; subst heq; exact absurd h (by decide)
    · by_contra hws
      simp only [Bool.not_eq_false] at hws
      have hcases : ((x = ' ' ∨ x = '\t') ∨ x = '\r') ∨ x = '\n' := by
        simpa [Char.isWhitespace, Bool.or_eq_true, decide_eq_true_eq] using hws
      rcases hcases with ((rfl | rfl) | rfl) | rfl <;> exact absurd h (by decide)

theorem uuid_chars_plain (id : List Char) (hid : isUuidLike id = true) :
    ∀ x ∈ id, x ≠ '"' ∧ x ≠ '\\' :=
  fun x hx => (hexOrDash_props x (uuid_char_cases id hid x hx)).1

theorem uuid_chars_nb (id : List Char) (hid : isUuidLike id = true) :
    ∀ x ∈ id, x ≠ btick :=
  fun x hx => (hexOrDash_props x (uuid_char_cases id hid x hx)).2.1

/-! ## The characters of a serialised verdict array -/

theorem serItem_decomp_true (id : List Char) :
    serItem id true =
      "\x7b\"task_answer_id\":\"".data ++ (id ++ "\",\"correct\":true\x7d".data) := rfl

theorem serItem_decomp_false (id : List Char) :
    serItem id false =
      "\x7b\"task_answer_id\":\"".data ++ (id ++ "\",\"correct\":false\x7d".data) := rfl

theorem serItem_chars (id : List Char) (b : Bool) (x : Char) (hx : x ∈ serItem id b) :
    x ∈ serPool ∨ x ∈ id := by
  cases b
  · rw [serItem_decomp_false] at hx
    rcases List.mem_append.mp hx with h | h
    · exact Or.inl ((by decide : ∀ y ∈ ("\x7b\"task_answer_id\":\"".data : List Char), y ∈ serPool) x h)
    · rcases List.mem_append.mp h with h2 | h2
      · exact Or.inr h2
      · exact Or.inl ((by decide : ∀ y ∈ ("\",\"correct\":false\x7d".data : List Char), y ∈ serPool) x h2)
  · rw [serItem_decomp_true] at hx
    rcases List.mem_append.mp hx with h | h
    · exact Or.inl ((by decide : ∀ y ∈ ("\x7b\"task_answer_id\":\"".data : List Char), y ∈ serPool) x h)
    · rcases List.mem_append.mp h with h2 | h2
      · exact Or.inr h2
      · exact Or.inl ((by decide : ∀ y ∈ ("\",\"correct\":true\x7d".data : List Char), y ∈ serPool) x h2)

theorem serItems_chars : ∀ (l : List (List Char × Bool)) (x : Char), x ∈ serItems l →
    x ∈ serPool ∨ ∃ p ∈ l, x ∈ p.1 := by
  intro l
  induction l with
  | nil => intro x hx; simp [serItems] at hx
  | cons v vs ih =>
    intro x hx
    cases vs with
    | nil =>
      rcases serItem_chars v.1 v.2 x hx with h | h
      · exact Or.inl h
      · exact Or.inr ⟨v, by simp, h⟩
    | cons w ws =>
      rw [show serItems (v :: w :: ws) = serItem v.1 v.2 ++ ',' :: serItems (w :: ws) from rfl]
        at hx
      rcases List.mem_append.mp hx with h | h
      · rcases serItem_chars v.1 v.2 x h with h2 | h2
        · exact Or.inl h2
        · exact Or.inr ⟨v, by simp, h2⟩
      · rcases List.mem_cons.mp h with rfl | h2
        · exact Or.inl (by decide)
        · rcases ih x h2 with h3 | ⟨p, hp, h3⟩
          · exact Or.inl h3
          · exact Or.inr ⟨p, by simp [hp], h3⟩

theorem serializeVerdicts_chars (l : List (List Char × Bool)) (x : Char)
    (hx : x ∈ serializeVerdicts l) : x ∈ serPool ∨ ∃ p ∈ l, x ∈ p.1 := by
  rcases List.mem_cons.mp hx with rfl | h
  · exact Or.inl (by decide)
  · rcases List.mem_append.mp h with h2 | h2
    · exact serItems_chars l x h2
    · rcases List.mem_singleton.mp h2 with rfl
      exact Or.inl (by decide)

theorem serializeVerdicts_no_btick (l : List (List Char × Bool))
    (hids : ∀ p ∈ l, isUuidLike p.1 = true) :
    ∀ x ∈ serializeVerdicts l, x ≠ btick := by
  intro x hx
  rcases serializeVerdicts_chars l x hx with h | ⟨p, hp, hxp⟩
  · exact (by decide : ∀ y ∈ serPool, y ≠ btick) x h
  · exact uuid_chars_nb p.1 (hids p hp) x hxp

theorem clean_serializeVerdicts (l : List (List Char × Bool))
    (hids : ∀ p ∈ l, isUuidLike p.1 = true) :
    clean (serializeVerdicts l) = serializeVerdicts l :=
  clean_of_plain '[' ']' (serItems l) (by decide) (by decide)
    (serializeVerdicts_no_btick l hids)

theorem clean_fenceWrap_serializeVerdicts (l : List (List Char × Bool))
    (hids : ∀ p ∈ l, isUuidLike p.1 = true) :
    clean (fenceWrap (serializeVerdicts l)) = serializeVerdicts l :=
  clean_fenceWrap '[' ']' (serItems l) (by decide) (by decide)
    (serializeVerdicts_no_btick l hids)

/-! ## The parse-of-serialise round trip -/

theorem parseChunkResponse_eq_of (text : List Char) (v : JVal)
    (hv : jsonLoads (clean text) = some v) :
    parseChunkResponse text =
      (match validateEvals v with
       | none => ChunkParse.validationError
       | some evs => ChunkParse.ok evs) := by
  unfold parseChunkResponse
  rw [hv]

theorem parseChunkResponse_serialize (l : List (List Char × Bool))
    (hids : ∀ p ∈ l, isUuidLike p.1 = true) :
    parseChunkResponse (serializeVerdicts l) = ChunkParse.ok l := by
  rw [parseChunkResponse_eq_of _ (JVal.jarr (l.map itemJVal))
    (by rw [clean_serializeVerdicts l hids]
        exact jsonLoads_serializeVerdicts l
          (fun p hp => uuid_chars_plain p.1 (hids p hp)))]
  rw [validateEvals_map l hids]

theorem parseChunkResponse_fenced (l : List (List Char × Bool))
    (hids : ∀ p ∈ l, isUuidLike p.1 = true) :
    parseChunkResponse (fenceWrap (serializeVerdicts l)) = ChunkParse.ok l := by
  rw [parseChunkResponse_eq_of _ (JVal.jarr (l.map itemJVal))
    (by rw [clean_fenceWrap_serializeVerdicts l hids]
        exact jsonLoads_serializeVerdicts l
          (fun p hp => uuid_chars_plain p.1 (hids p hp)))]
  rw [validateEvals_map l hids]

/-! ## Aggregation over benign chunk calls -/

theorem processChunk_benign (st : AggState) (res : CallResult) (h : chunkBenign res = true) :
    processChunk st res = Except.ok ⟨st.evaluations ++ chunkVerdicts res,
      st.total_duration + chunkDuration res, st.total_prompt_tokens + chunkPromptTok res,
      st.total_candidates_tokens + chunkCandTok res, st.total_tokens + chunkTotalTok res⟩ := by
  cases res with
  | raise => simp [chunkBenign] at h
  | ok dur resp =>
    obtain ⟨um, text⟩ := resp
    simp only [chunkBenign, Bool.and_eq_true, Bool.or_eq_true] at h
    obtain ⟨hum, htext⟩ := h
    cases um with
    | none =>
      by_cases htxt : text.isEmpty
      · simp [processChunk, chunkVerdicts, chunkDuration, chunkPromptTok, chunkCandTok,
          chunkTotalTok, htxt]
      · rcases hp : parseChunkResponse text with _ | _ | evs
        · simp [processChunk, chunkVerdicts, chunkDuration, chunkPromptTok, chunkCandTok,
            chunkTotalTok, htxt, hp]
        · exfalso
          rcases htext with h1 | h1
          · exact htxt h1
          · rw [hp] at h1
            simp at h1
        · simp [processChunk, chunkVerdicts, chunkDuration, chunkPromptTok, chunkCandTok,
            chunkTotalTok, htxt, hp]
    | some u =>
      obtain ⟨p, cd, t⟩ := u
      cases p with
      | none => simp at hum
      | some pv =>
        cases cd with
        | none => simp at hum
        | some cdv =>
          cases t with
          | none => simp at hum
          | some tv =>
            by_cases htxt : text.isEmpty
            · simp [processChunk, chunkVerdicts, chunkDuration, chunkPromptTok, chunkCandTok,
                chunkTotalTok, htxt]
            · rcases hp : parseChunkResponse text with _ | _ | evs
              · simp [processChunk, chunkVerdicts, chunkDuration, chunkPromptTok, chunkCandTok,
                  chunkTotalTok, htxt, hp]
              · exfalso
                rcases htext with h1 | h1
                · exact htxt h1
                · rw [hp] at h1
                  simp at h1
              · simp [processChunk, chunkVerdicts, chunkDuration, chunkPromptTok, chunkCandTok,
                  chunkTotalTok, htxt, hp]

theorem processChunks_cons_ok (oracle : Nat → CallResult) (st st' : AggState) (i : Nat)
    (c : List AnswerForEval) (cs : List (List AnswerForEval))
    (h : processChunk st (oracle i) = Except.ok st') :
    processChunks oracle st i (c :: cs) = processChunks oracle st' (i + 1) cs := by
  show (match processChunk st (oracle i) with
        | Except.error e => Except.error e
        | Except.ok st' => processChunks oracle st' (i + 1) cs) = _
  rw [h]

theorem accumulate_nil (st : AggState) : accumulate st [] = st := by
  simp [accumulate]

theorem accumulate_cons (st : AggState) (r : CallResult) (rs : List CallResult) :
    accumulate st (r :: rs) =
      accumulate ⟨st.evaluations ++ chunkVerdicts r, st.total_duration + chunkDuration r,
        st.total_prompt_tokens + chunkPromptTok r, st.total_candidates_tokens + chunkCandTok r,
        st.total_tokens + chunkTotalTok r⟩ rs := by
  simp [accumulate, List.append_assoc, add_assoc]

theorem processChunks_benign (oracle : Nat → CallResult) :
    ∀ (chunks : List (List AnswerForEval)) (i : Nat) (st : AggState),
      (∀ j, j < chunks.length → chunkBenign (oracle (i + j)) = true) →
      processChunks oracle st i chunks =
        Except.ok (accumulate st (oracleResults oracle i chunks.length)) := by
  intro chunks
  induction chunks with
  | nil =>
    intro i st _
    show Except.ok st = _
    rw [show oracleResults oracle i ([] : List (List AnswerForEval)).length = [] from rfl,
      accumulate_nil]
  | cons c cs ih =>
    intro i st h
    have h0 : chunkBenign (oracle i) = true := by
      have := h 0 (by simp)
      simpa using this
    have hshift : ∀ j, j < cs.length → chunkBenign (oracle (i + 1 + j)) = true := by
      intro j hj
      have := h (j + 1) (by simp; omega)
      rwa [show i + (j + 1) = i + 1 + j from by omega] at this
    rw [processChunks_cons_ok oracle st _ i c cs (processChunk_benign st (oracle i) h0)]
    rw [ih (i + 1) _ hshift]
    rw [show oracleResults oracle i (c :: cs).length =
      oracle i :: oracleResults oracle (i + 1) cs.length from rfl]
    rw [accumulate_cons]

theorem evaluate_benign (payload : EvaluationPayload) (oracle : Nat → CallResult)
    (h : ∀ j, j < (chunkList 10 payload.answers).length → chunkBenign (oracle j) = true) :
    evaluate_answers_with_ai payload oracle = benignResult payload oracle := by
  unfold evaluate_answers_with_ai evaluateBody
  rw [processChunks_benign oracle _ 0 initAgg
    (fun j hj => by rw [Nat.zero_add]; exact h j hj)]
  unfold benignResult accumulate initAgg
  simp
  by_cases hc : ∀ a ∈ oracleResults oracle 0 (chunkList 10 payload.answers).length,
      chunkVerdicts a = []
  · rw [if_pos hc, if_pos hc]
  · rw [if_neg hc, if_neg hc]

theorem evaluate_of_processChunks_ok (payload : EvaluationPayload) (oracle : Nat → CallResult)
    (st : AggState)
    (h : processChunks oracle initAgg 0 (chunkList 10 payload.answers) = Except.ok st) :
    evaluate_answers_with_ai payload oracle =
      (if st.evaluations.isEmpty then none
       else some ⟨st.evaluations, st.total_duration, st.total_prompt_tokens,
                  st.total_candidates_tokens, st.total_tokens⟩) := by
  unfold evaluate_answers_with_ai evaluateBody
  rw [h]
  by_cases he : st.evaluations.isEmpty <;> simp [he]

/-! ## Repository frame lemmas -/

theorem updateFirst_map_eraseStatus (p : TaskAnswer → Bool) (c : Bool) :
    ∀ l : List TaskAnswer,
      (updateFirst p (fun x => { x with status := some c }) l).map eraseStatus =
        l.map eraseStatus := by
  intro l
  induction l with
  | nil => rfl
  | cons x xs ih =>
    unfold updateFirst
    by_cases hp : p x
    · rw [if_pos hp]
      simp only [List.map_cons]
      rfl
    · rw [if_neg hp]
      simp only [List.map_cons, ih]

theorem update_frame (db : DB) (tid : List Char) (c : Bool) :
    (update_task_answer_status db tid c).1.questions = db.questions ∧
    (update_task_answer_status db tid c).1.request_logs = db.request_logs ∧
    (update_task_answer_status db tid c).1.task_answers.map eraseStatus =
      db.task_answers.map eraseStatus := by
  unfold update_task_answer_status
  cases hf : db.task_answers.find? (fun a => a.id = tid) with
  | none => exact ⟨rfl, rfl, rfl⟩
  | some a => exact ⟨rfl, rfl, updateFirst_map_eraseStatus _ c db.task_answers⟩

theorem find?_of_first (p : TaskAnswer → Bool) (a : TaskAnswer) (l2 : List TaskAnswer)
    (ha : p a = true) :
    ∀ l1 : List TaskAnswer, (∀ b ∈ l1, p b = false) →
      (l1 ++ a :: l2).find? p = some a := by
  intro l1
  induction l1 with
  | nil => intro _; simp [List.find?_cons, ha]
  | cons x xs ih =>
    intro h
    rw [List.cons_append, List.find?_cons, h x (by simp)]
    exact ih (fun b hb => h b (by simp [hb]))

theorem updateFirst_of_first (p : TaskAnswer → Bool) (f : TaskAnswer → TaskAnswer)
    (a : TaskAnswer) (l2 : List TaskAnswer) (ha : p a = true) :
    ∀ l1 : List TaskAnswer, (∀ b ∈ l1, p b = false) →
      updateFirst p f (l1 ++ a :: l2) = l1 ++ f a :: l2 := by
  intro l1
  induction l1 with
  | nil =>
    intro _
    show updateFirst p f (a :: l2) = f a :: l2
    unfold updateFirst
    rw [if_pos ha]
  | cons x xs ih =>
    intro h
    rw [List.cons_append]
    show updateFirst p f (x :: (xs ++ a :: l2)) = _
    unfold updateFirst
    rw [if_neg (by simp [h x (by simp)])]
    rw [ih (fun b hb => h b (by simp [hb]))]
    rfl

/-- Claim C10: crud.update_task_answer_status modifies at most the
`status` field of the single (first) answer whose id matches: a missing
id writes nothing and returns `None`; otherwise exactly that answer
gets its `status` set and is returned, every other answer and every
other field untouched. -/
theorem update_task_answer_status_spec (db : DB) (tid : List Char) (c : Bool) :
    ((∀ a ∈ db.task_answers, a.id ≠ tid) →
      update_task_answer_status db tid c = (db, none)) ∧
    (∀ l1 a l2, db.task_answers = l1 ++ a :: l2 → a.id = tid →
      (∀ b ∈ l1, b.id ≠ tid) →
      update_task_answer_status db tid c =
        ({ db with task_answers := l1 ++ { a with status := some c } :: l2 },
         some { a with status := some c })) := by
  constructor
  · intro h
    unfold update_task_answer_status
    rw [List.find?_eq_none.mpr (fun a ha => by simp [h a ha])]
  · intro l1 a l2 hsplit hid hl1
    unfold update_task_answer_status
    rw [hsplit]
    rw [find?_of_first _ a l2 (by simp [hid]) l1 (fun b hb => by simp [hl1 b hb])]
    rw [updateFirst_of_first _ _ a l2 (by simp [hid]) l1 (fun b hb => by simp [hl1 b hb])]

/-! ## Per-question processing -/

theorem applyEvaluations_frame (env : SessionEnv) :
    ∀ (vs : List (List Char × Bool)) (db db' : DB),
      applyEvaluations env db vs = Except.ok db' →
      db'.questions = db.questions ∧
      db'.request_logs = db.request_logs ∧
      db'.task_answers.map eraseStatus = db.task_answers.map eraseStatus := by
  intro vs
  induction vs with
  | nil =>
    intro db db' h
    obtain rfl : db = db' := by simpa [applyEvaluations] using h
    exact ⟨rfl, rfl, rfl⟩
  | cons v vs ih =>
    intro db db' h
    unfold applyEvaluations update_task_answer_status_f at h
    by_cases hr : env.update_raises v.1
    · rw [if_pos hr] at h
      simp at h
    · rw [if_neg hr] at h
      obtain ⟨h1, h2, h3⟩ := ih _ _ h
      obtain ⟨g1, g2, g3⟩ := update_frame db v.1 v.2
      exact ⟨h1.trans g1, h2.trans g2, h3.trans g3⟩

theorem applyEvaluations_noFail (env : SessionEnv) (henv : envNoFail env) :
    ∀ (vs : List (List Char × Bool)) (db : DB),
      ∃ db', applyEvaluations env db vs = Except.ok db' := by
  intro vs
  induction vs with
  | nil => intro db; exact ⟨db, rfl⟩
  | cons v vs ih =>
    intro db
    obtain ⟨db', h⟩ := ih (update_task_answer_status db v.1 v.2).1
    refine ⟨db', ?_⟩
    unfold applyEvaluations update_task_answer_status_f
    rw [henv.1 v.1]
    exact h

theorem processQuestion_none (env : SessionEnv) (oracle : Nat → CallResult) (db : DB)
    (q : Question) (answers : List TaskAnswer)
    (h : evaluate_answers_with_ai (payloadOf q answers) oracle = none) :
    processQuestion env oracle db q answers = Except.ok db := by
  unfold processQuestion
  rw [h]

theorem processQuestion_some (env : SessionEnv) (oracle : Nat → CallResult) (db : DB)
    (q : Question) (answers : List TaskAnswer) (r : ServiceEvaluationResult)
    (h : evaluate_answers_with_ai (payloadOf q answers) oracle = some r) :
    processQuestion env oracle db q answers =
      (match applyEvaluations env db r.evaluations with
       | Except.error e => Except.error e
       | Except.ok db1 => create_request_log_f env db1 (mkLogEntry q answers r)) := by
  unfold processQuestion
  rw [h]

theorem processQuestion_frame (env : SessionEnv) (oracle : Nat → CallResult) (db : DB)
    (q : Question) (answers : List TaskAnswer) (db' : DB)
    (h : processQuestion env oracle db q answers = Except.ok db') :
    db'.questions = db.questions ∧
    db'.task_answers.map eraseStatus = db.task_answers.map eraseStatus := by
  cases hev : evaluate_answers_with_ai (payloadOf q answers) oracle with
  | none =>
    rw [processQuestion_none env oracle db q answers hev] at h
    obtain rfl : db = db' := by simpa using h
    exact ⟨rfl, rfl⟩
  | some r =>
    rw [processQuestion_some env oracle db q answers r hev] at h
    cases happ : applyEvaluations env db r.evaluations with
    | error e =>
      rw [happ] at h
      replace h : (Except.error e : Except DbError DB) = Except.ok db' := h
      simp at h
    | ok db1 =>
      rw [happ] at h
      replace h : create_request_log_f env db1 (mkLogEntry q answers r) = Except.ok db' := h
      obtain ⟨h1, _, h3⟩ := applyEvaluations_frame env r.evaluations db db1 happ
      unfold create_request_log_f create_request_log at h
      by_cases hlr : env.log_raises (mkLogEntry q answers r).question_id
      · rw [if_pos hlr] at h
        simp at h
      · rw [if_neg hlr] at h
        obtain rfl :
            ({ db1 with request_logs := db1.request_logs ++ [mkLogEntry q answers r] } : DB)
              = db' := by
          simpa using h
        exact ⟨h1, h3⟩

theorem processQuestion_noFail (env : SessionEnv) (henv : envNoFail env)
    (oracle : Nat → CallResult) (db : DB) (q : Question) (answers : List TaskAnswer) :
    ∃ db', processQuestion env oracle db q answers = Except.ok db' ∧
      db'.request_logs = db.request_logs ++
        (match evaluate_answers_with_ai (payloadOf q answers) oracle with
         | none => []
         | some r => [mkLogEntry q answers r]) := by
  cases hev : evaluate_answers_with_ai (payloadOf q answers) oracle with
  | none => exact ⟨db, processQuestion_none env oracle db q answers hev, by simp⟩
  | some r =>
    obtain ⟨db1, happ⟩ := applyEvaluations_noFail env henv r.evaluations db
    obtain ⟨_, hlogs, _⟩ := applyEvaluations_frame env r.evaluations db db1 happ
    refine ⟨create_request_log db1 (mkLogEntry q answers r), ?_, ?_⟩
    · rw [processQuestion_some env oracle db q answers r hev, happ]
      show create_request_log_f env db1 (mkLogEntry q answers r) = _
      unfold create_request_log_f
      rw [henv.2 (mkLogEntry q answers r).question_id]
      rfl
    · unfold create_request_log
      simp [hlogs]

/-! ## The question loop -/

theorem runQuestions_frame (env : SessionEnv) (oracle : Nat → Nat → CallResult) :
    ∀ (items : List (Nat × (Question × List TaskAnswer))) (db db' : DB),
      runQuestions env oracle db items = Except.ok db' →
      db'.questions = db.questions ∧
      db'.task_answers.map eraseStatus = db.task_answers.map eraseStatus := by
  intro items
  induction items with
  | nil =>
    intro db db' h
    obtain rfl : db = db' := by simpa [runQuestions] using h
    exact ⟨rfl, rfl⟩
  | cons item rest ih =>
    obtain ⟨qi, q, answers⟩ := item
    intro db db' h
    unfold runQuestions at h
    by_cases he : answers.isEmpty
    · rw [if_pos he] at h
      exact ih db db' h
    · rw [if_neg he] at h
      cases hp : processQuestion env (oracle qi) db q answers with
      | error e => rw [hp] at h; simp at h
      | ok db1 =>
        rw [hp] at h
        obtain ⟨h1, h3⟩ := processQuestion_frame env (oracle qi) db q answers db1 hp
        obtain ⟨g1, g3⟩ := ih db1 db' h
        exact ⟨g1.trans h1, g3.trans h3⟩

theorem runQuestions_noFail (env : SessionEnv) (henv : envNoFail env)
    (oracle : Nat → Nat → CallResult) :
    ∀ (items : List (Nat × (Question × List TaskAnswer))) (db : DB),
      ∃ db', runQuestions env oracle db items = Except.ok db' := by
  intro items
  induction items with
  | nil => intro db; exact ⟨db, rfl⟩
  | cons item rest ih =>
    obtain ⟨qi, q, answers⟩ := item
    intro db
    unfold runQuestions
    by_cases he : answers.isEmpty
    · rw [if_pos he]
      exact ih db
    · rw [if_neg he]
      obtain ⟨db1, hp, _⟩ := processQuestion_noFail env henv (oracle qi) db q answers
      obtain ⟨db', hr⟩ := ih db1
      refine ⟨db', ?_⟩
      rw [hp]
      exact hr

/-! ## A raising chunk call aborts the whole question -/

theorem processChunks_reach_raise (oracle : Nat → CallResult) :
    ∀ (chunks : List (List AnswerForEval)) (i : Nat) (st : AggState) (j : Nat),
      j < chunks.length →
      (∀ k, k < j → chunkBenign (oracle (i + k)) = true) →
      oracle (i + j) = CallResult.raise →
      processChunks oracle st i chunks = Except.error PyError.graderCallError := by
  intro chunks
  induction chunks with
  | nil => intro i st j hj; simp at hj
  | cons c cs ih =>
    intro i st j hj hben hraise
    cases j with
    | zero =>
      rw [Nat.add_zero] at hraise
      show (match processChunk st (oracle i) with
            | Except.error e => Except.error e
            | Except.ok st' => processChunks oracle st' (i + 1) cs) = _
      rw [hraise]
      rfl
    | succ k =>
      have h0 : chunkBenign (oracle i) = true := by
        have := hben 0 (by omega)
        simpa using this
      rw [processChunks_cons_ok oracle st _ i c cs (processChunk_benign st (oracle i) h0)]
      refine ih (i + 1) _ k (by simpa using hj) ?_ ?_
      · intro m hm
        have := hben (m + 1) (by omega)
        rwa [show i + (m + 1) = i + 1 + m from by omega] at this
      · rwa [show i + (k + 1) = i + 1 + k from by omega] at hraise

/-! # Claim theorems -/

/-- Claim C1, counterexample.  Eleven answers make two chunks; chunk 0's
call succeeds and its text parses into a verdict, chunk 1's call raises.
Contrary to the claim, the orchestrator does not continue with the
successful chunks: the exception reaches the outer handler and the whole
question returns `None`. -/
theorem grader_raise_discards_other_chunks :
    evaluate_answers_with_ai payloadC1 oracleC1 = none ∧
    chunkBenign (oracleC1 0) = true ∧
    parseChunkResponse txtC1 = ChunkParse.ok [(uu 0, true)] ∧
    (chunkList 10 payloadC1.answers).length = 2 ∧
    oracleC1 1 = CallResult.raise := by decide

set_option maxRecDepth 8000 in
/-- Claim C1, amended.  Per-chunk isolation holds only for the response
side: when every chunk call completes benignly (no raise, integer
usage counters, no schema-validation error), a chunk whose text is
empty or fails to decode is skipped and the rest are aggregated, token
totals included for every completed call.  A grader-call failure at
chunk `j`, however, aborts the question: the orchestrator returns
`None`, discarding the earlier chunks' verdicts. -/
theorem parse_failures_isolated_grader_raise_aborts (payload : EvaluationPayload)
    (oracle : Nat → CallResult) :
    ((∀ j, j < (chunkList 10 payload.answers).length → chunkBenign (oracle j) = true) →
      evaluate_answers_with_ai payload oracle = benignResult payload oracle) ∧
    (∀ j, j < (chunkList 10 payload.answers).length →
      (∀ k, k < j → chunkBenign (oracle k) = true) →
      oracle j = CallResult.raise →
      evaluate_answers_with_ai payload oracle = none) := by
  constructor
  · intro h
    exact evaluate_benign payload oracle h
  · intro j hj hben hraise
    unfold evaluate_answers_with_ai evaluateBody
    rw [processChunks_reach_raise oracle (chunkList 10 payload.answers) 0 initAgg j hj
      (fun k hk => by rw [Nat.zero_add]; exact hben k hk)
      (by rw [Nat.zero_add]; exact hraise)]

/-- Witness for the amended claim C1: with a decode-failing second
chunk the orchestrator aggregates chunk 0's verdict; with a raising
second chunk it returns `None`. -/
theorem chunk_error_isolation_instance :
    evaluate_answers_with_ai payloadC1 oracleC1w = some ⟨[(uu 0, true)], 3, 110, 220, 330⟩ ∧
    evaluate_answers_with_ai payloadC1 oracleC1 = none := by
  constructor
  · rw [(parse_failures_isolated_grader_raise_aborts payloadC1 oracleC1w).1 (by decide)]
    decide
  · exact (parse_failures_isolated_grader_raise_aborts payloadC1 oracleC1).2 1 (by decide)
      (by decide) (by decide)

set_option maxRecDepth 8000 in
/-- Claim C2, counterexample.  Two questions are fetched; while
persisting question A's verdict the repository commit raises, and —
contrary to the claim — the exception escapes the runner and halts the
batch instead of being caught at the per-question boundary. -/
theorem verdict_write_raise_halts_batch :
    run_evaluation_and_update_db envC2 oracleC2 dbAB = Except.error DbError.writeError ∧
    (get_all_questions_with_answers dbAB).length = 2 := by decide

set_option maxRecDepth 8000 in
/-- Claim C2, amended.  The runner has no catch-all: only failures the
orchestrator signals by returning `None` are handled per question.  As
long as no repository commit raises, the batch always runs to
completion, whatever the grader does. -/
theorem batch_completes_without_repository_failures (env : SessionEnv) (henv : envNoFail env)
    (oracle : Nat → Nat → CallResult) (db : DB) :
    ∃ db', run_evaluation_and_update_db env oracle db = Except.ok db' :=
  runQuestions_noFail env henv oracle (get_all_questions_with_answers db).enum db

/-- Witness for the amended claim C2 at a concrete store and oracle. -/
theorem batch_completes_instance :
    ∃ db', run_evaluation_and_update_db envNone oracleC2 dbAB = Except.ok db' :=
  batch_completes_without_repository_failures envNone ⟨fun _ => rfl, fun _ => rfl⟩ oracleC2 dbAB

/-- Claim C3, counterexample.  While evaluating question A the grader
returns a verdict whose id belongs to question B's answer; the pipeline
trusts it and writes question B's answer's status, contrary to the
claim that a verdict is never written to an answer of a different
question. -/
theorem stray_verdict_hits_other_question :
    run_evaluation_and_update_db envNone oracleC3 dbAB = Except.ok dbC3' ∧
    aB.question_id = qidB ∧ qidB ≠ qidA ∧ aB.status = none ∧
    dbC3'.task_answers = [aA, { aB with status := some true }] := by decide

set_option maxRecDepth 8000 in
/-- Claim C3, amended.  What does hold: a run never creates or deletes
answers and mutates nothing but `status` fields, so every verdict write
lands on an answer id already in the store (unknown ids are ignored);
but nothing ties the written id to the question under evaluation. -/
theorem run_mutates_only_status_of_stored_answers (env : SessionEnv)
    (oracle : Nat → Nat → CallResult) (db db' : DB)
    (h : run_evaluation_and_update_db env oracle db = Except.ok db') :
    db'.questions = db.questions ∧
    db'.task_answers.map eraseStatus = db.task_answers.map eraseStatus :=
  runQuestions_frame env oracle _ db db' h

/-- Witness for the amended claim C3 at a concrete run. -/
theorem run_mutates_only_status_instance :
    dbC3'.questions = dbAB.questions ∧
    dbC3'.task_answers.map eraseStatus = dbAB.task_answers.map eraseStatus :=
  run_mutates_only_status_of_stored_answers envNone oracleC3 dbAB dbC3' (by decide)

set_option maxRecDepth 8000 in
/-- Claim C4, counterexample.  Twelve answers, chunk 1 parses into ten
verdicts, chunk 2's completed call returns unparseable text.  The
aggregated result does hold exactly ten verdicts, but — contrary to the
claim — its duration and token counters include chunk 2's contribution
(duration 3 = 1+2, not 1; prompt tokens 110 = 10+100, not 10), because
the source accumulates both before parsing. -/
theorem unparseable_chunk_still_counted :
    evaluate_answers_with_ai payloadC4 oracleC4 = some resC4 ∧
    resC4.evaluations.length = 10 ∧
    resC4 ≠ ⟨verdsC4, 1, 10, 20, 30⟩ ∧
    resC4.duration ≠ 1 ∧ resC4.prompt_tokens ≠ 10 := by decide

set_option maxRecDepth 8000 in
/-- Claim C4, amended.  In the 12-answer scenario the orchestrator
builds chunks of sizes 10 and 2, returns exactly the ten verdicts of
chunk 1 (A11 and A12 get none and keep a null verdict through the
runner), while the recorded duration and every token counter sum BOTH
chunks' contributions. -/
theorem twelve_answers_partial_parse_behaviour :
    (chunkList 10 payloadC4.answers).map List.length = [10, 2] ∧
    evaluate_answers_with_ai payloadC4 oracleC4 = some resC4 ∧
    resC4.evaluations = verdsC4 ∧ verdsC4.length = 10 ∧
    resC4.duration = 1 + 2 ∧ resC4.prompt_tokens = 10 + 100 ∧
    resC4.candidates_tokens = 20 + 200 ∧ resC4.total_tokens = 30 + 300 ∧
    processQuestion envNone oracleC4 dbC4 qC4 tasksC4 = Except.ok dbC4' ∧
    (dbC4'.task_answers.take 10).all (fun a => a.status = some true) = true ∧
    (dbC4'.task_answers.drop 10).all (fun a => a.status = none) = true := by decide

/-- Witness for claim C5 at `L = 8`, `C = 3`. -/
theorem chunkList_spec_witness :
    0 < 3 ∧
    ((chunkList 3 (List.replicate 8 ⟨uu 2, "w".data⟩)).length =
        ((List.replicate 8 (⟨uu 2, "w".data⟩ : AnswerForEval)).length + 3 - 1) / 3 ∧
      (chunkList 3 (List.replicate 8 ⟨uu 2, "w".data⟩)).flatten =
        List.replicate 8 ⟨uu 2, "w".data⟩ ∧
      (∀ ch ∈ (chunkList 3 (List.replicate 8 ⟨uu 2, "w".data⟩)).dropLast, ch.length = 3) ∧
      (∀ ch, (chunkList 3 (List.replicate 8 ⟨uu 2, "w".data⟩)).getLast? = some ch →
        ch.length =
          if (List.replicate 8 (⟨uu 2, "w".data⟩ : AnswerForEval)).length % 3 = 0 then 3
          else (List.replicate 8 (⟨uu 2, "w".data⟩ : AnswerForEval)).length % 3)) :=
  ⟨by decide, chunkList_spec 3 (by decide) (List.replicate 8 ⟨uu 2, "w".data⟩)⟩

/-- Claim C6: serialising any verdict mapping (over UUID-form ids) as
the grader's JSON array of `task_answer_id`/`correct` objects and
running the pipeline's parsing step — fence stripping, `json.loads`,
schema validation — reproduces the mapping exactly, both bare and
wrapped in a markdown ```json fence. -/
theorem parse_of_serialize_roundtrip (l : List (List Char × Bool))
    (hids : ∀ p ∈ l, isUuidLike p.1 = true) :
    parseChunkResponse (serializeVerdicts l) = ChunkParse.ok l ∧
    parseChunkResponse (fenceWrap (serializeVerdicts l)) = ChunkParse.ok l :=
  ⟨parseChunkResponse_serialize l hids, parseChunkResponse_fenced l hids⟩

set_option maxRecDepth 8000 in
/-- Witness for claim C6 at a two-verdict mapping. -/
theorem parse_of_serialize_roundtrip_instance :
    (∀ p ∈ [(uu 0, true), (uu 1, false)], isUuidLike p.1 = true) ∧
    (parseChunkResponse (serializeVerdicts [(uu 0, true), (uu 1, false)]) =
        ChunkParse.ok [(uu 0, true), (uu 1, false)] ∧
      parseChunkResponse (fenceWrap (serializeVerdicts [(uu 0, true), (uu 1, false)])) =
        ChunkParse.ok [(uu 0, true), (uu 1, false)]) :=
  ⟨by decide, parse_of_serialize_roundtrip [(uu 0, true), (uu 1, false)] (by decide)⟩

/-- Claim C7: when the chunk loop for a question runs to completion
with final accumulators `st`, the orchestrator returns an aggregated
result exactly when the merged verdict list `st.evaluations` is
non-empty (and then it returns precisely that list with the summed
counters); and, under a repository that does not raise, the runner
inserts a usage-log row for the question exactly when such a result was
returned — never for a question whose chunks produced no verdicts. -/
theorem result_iff_verdicts_and_log_iff_result (env : SessionEnv) (oracle : Nat → CallResult)
    (db : DB) (q : Question) (answers : List TaskAnswer) (st : AggState)
    (henv : envNoFail env)
    (hok : processChunks oracle initAgg 0 (chunkList 10 (payloadOf q answers).answers) =
      Except.ok st) :
    ((evaluate_answers_with_ai (payloadOf q answers) oracle ≠ none) ↔ st.evaluations ≠ []) ∧
    (st.evaluations ≠ [] →
      evaluate_answers_with_ai (payloadOf q answers) oracle =
        some ⟨st.evaluations, st.total_duration, st.total_prompt_tokens,
              st.total_candidates_tokens, st.total_tokens⟩) ∧
    (∀ db', processQuestion env oracle db q answers = Except.ok db' →
      ((db'.request_logs ≠ db.request_logs) ↔
        evaluate_answers_with_ai (payloadOf q answers) oracle ≠ none)) := by
  have he := evaluate_of_processChunks_ok (payloadOf q answers) oracle st hok
  have hiff : (evaluate_answers_with_ai (payloadOf q answers) oracle ≠ none) ↔
      st.evaluations ≠ [] := by
    rw [he]
    by_cases hemp : st.evaluations.isEmpty
    · rw [if_pos hemp]
      constructor
      · intro h
        exact absurd rfl h
      · intro h
        exact absurd (List.isEmpty_iff.mp hemp) h
    · rw [if_neg hemp]
      constructor
      · intro _
        intro habs
        exact hemp (by simp [habs])
      · intro _
        simp
  refine ⟨hiff, ?_, ?_⟩
  · intro hne
    rw [he, if_neg (fun habs => hne (List.isEmpty_iff.mp habs))]
  · intro db' hdb
    obtain ⟨db'', hq, hlogs⟩ := processQuestion_noFail env henv oracle db q answers
    rw [hdb] at hq
    obtain rfl : db' = db'' := Except.ok.inj hq
    rw [hlogs]
    cases hev : evaluate_answers_with_ai (payloadOf q answers) oracle with
    | none => simp
    | some r => simp

set_option maxRecDepth 8000 in
/-- Witness for claim C7 in the 12-answer scenario: the result is
non-`None` and a usage-log row was appended. -/
theorem result_and_log_instance :
    evaluate_answers_with_ai (payloadOf qC4 tasksC4) oracleC4 ≠ none ∧
    dbC4'.request_logs ≠ dbC4.request_logs := by
  have h := result_iff_verdicts_and_log_iff_result envNone oracleC4 dbC4 qC4 tasksC4 stC4
    ⟨fun _ => rfl, fun _ => rfl⟩ (by decide)
  exact ⟨h.1.mpr (by decide), (h.2.2 dbC4' (by decide)).mpr (h.1.mpr (by decide))⟩

/-- Claim C8: the batch runner's question loop skips a question with an
empty answer list outright — the store is untouched, no orchestrator or
grader call is consumed (the equations hold for every oracle), and the
loop proceeds directly to the remaining questions. -/
theorem empty_answer_question_is_skipped (env : SessionEnv) (oracle : Nat → Nat → CallResult)
    (db : DB) (qi : Nat) (q : Question) (rest : List (Nat × (Question × List TaskAnswer))) :
    runQuestions env oracle db ((qi, (q, [])) :: rest) = runQuestions env oracle db rest ∧
    runQuestions env oracle db [(qi, (q, []))] = Except.ok db :=
  ⟨rfl, rfl⟩

/-- Claim C9: `evaluate_answers_with_ai` is total at its boundary —
whatever the grader call, the usage-metadata access, the decode or the
schema validation do internally (every raising path is an
`Except.error` of `evaluateBody`), the caller sees either a result or
`None`, never a propagated exception. -/
theorem evaluate_never_raises_at_boundary (payload : EvaluationPayload)
    (oracle : Nat → CallResult) :
    (∃ e, evaluateBody payload oracle = Except.error e ∧
      evaluate_answers_with_ai payload oracle = none) ∨
    (∃ r, evaluateBody payload oracle = Except.ok r ∧
      evaluate_answers_with_ai payload oracle = r) := by
  unfold evaluate_answers_with_ai
  cases hb : evaluateBody payload oracle with
  | error e => exact Or.inl ⟨e, rfl, rfl⟩
  | ok r => exact Or.inr ⟨r, rfl, rfl⟩

/-- Witness for claim C10: updating a missing id is a no-op returning
`None`; updating `uu 0` sets exactly that answer's status. -/
theorem update_task_answer_status_instance :
    update_task_answer_status dbAB (uu 5) true = (dbAB, none) ∧
    update_task_answer_status dbAB (uu 0) true =
      ({ dbAB with task_answers := [{ aA with status := some true }, aB] },
       some { aA with status := some true }) := by
  constructor
  · exact (update_task_answer_status_spec dbAB (uu 5) true).1 (by decide)
  · have h := (update_task_answer_status_spec dbAB (uu 0) true).2 [] aA [aB]
      (by decide) (by decide) (by simp)
    simpa using h
